import Mathlib

/-
Verification of the yamanote bookmarking service's render engine, migration
engine, change-log trigger engine and repository operations, against a shallow
embedding of the TypeScript source (src/renderers.ts, src/utils.ts,
src/migrations/v3-to-v4.ts, src/makeBackupTriggers.ts, src/index.ts).
Strings from the source are modelled as lists of characters so that splicing
and newline reasoning is structural; external collaborators (the WHATWG URL
parser, Date.toISOString, sha256, the srcset parser) are universally
quantified function parameters, since the embedded code only forwards their
deterministic outputs.
-/

set_option linter.unusedVariables false
set_option maxRecDepth 100000

namespace Yamanote

/-- JavaScript strings are modelled as lists of characters. -/
abbrev Str := List Char

/-- Decimal digit character, for rendering interpolated numeric ids. -/
def digitChar (n : Nat) : Char :=
  if n = 0 then '0'
  else if n = 1 then '1'
  else if n = 2 then '2'
  else if n = 3 then '3'
  else if n = 4 then '4'
  else if n = 5 then '5'
  else if n = 6 then '6'
  else if n = 7 then '7'
  else if n = 8 then '8'
  else '9'

/-- Fuelled decimal rendering of a natural number; fuel n + 1 always suffices. -/
def natToStrAux : Nat → Nat → Str
  | 0, _ => []
  | fuel + 1, n => if n < 10 then [digitChar n] else natToStrAux fuel (n / 10) ++ [digitChar (n % 10)]

/-- JavaScript template interpolation of a number or bigint (decimal). -/
def natToStr (n : Nat) : Str := natToStrAux (n + 1) n

/-- JavaScript template interpolation of a possibly negative integer. -/
def intToStr (i : Int) : Str := if i < 0 then '-' :: natToStr i.natAbs else natToStr i.natAbs

/-- hasLead needle hay: needle is an initial segment of hay (String.startsWith). -/
def hasLead : Str → Str → Bool
  | [], _ => true
  | _ :: _, [] => false
  | a :: as, b :: bs => a = b && hasLead as bs

/-- containsSeg needle hay: needle occurs contiguously inside hay (String.includes). -/
def containsSeg (needle : Str) : Str → Bool
  | [] => hasLead needle []
  | c :: rest => hasLead needle (c :: rest) || containsSeg needle rest

/-- Array.prototype.join with a separator. -/
def joinSep (sep : Str) : List Str → Str
  | [] => []
  | [s] => s
  | s :: rest => s ++ sep ++ joinSep sep rest

/-- Array.prototype.join with a newline separator, as used by the bookmark render. -/
def joinNL (xs : List Str) : Str := joinSep ['\n'] xs

/-- utils.ts add1: x + y with y defaulting to 1 (number and bigint both collapse to Int). -/
def add1 (x : Int) (y : Int := 1) : Int := x + y

/-- html-entities encode of one character (external library, mode specialChars):
the five HTML special characters become named entities, everything else is kept. -/
def encodeChar (c : Char) : Str :=
  if c = '&' then "&amp;".toList
  else if c = '<' then "&lt;".toList
  else if c = '>' then "&gt;".toList
  else if c = Char.ofNat 34 then '&' :: 'q' :: 'u' :: 'o' :: 't' :: [';']
  else if c = Char.ofNat 39 then '&' :: 'a' :: 'p' :: 'o' :: 's' :: [';']
  else [c]

/-- html-entities encode over a whole string. -/
def encode (s : Str) : Str := s.foldr (fun c acc => encodeChar c ++ acc) []

/-- renderers.ts encodeTitle, run-replacement part: title.replace of every maximal
run of newline or carriage-return characters by a single return glyph. The Bool
argument tracks whether the previous character was part of such a run. -/
def encodeTitleAux : Bool → Str → Str
  | _, [] => []
  | inRun, c :: rest =>
    if c = '\n' ∨ c = '\r' then
      (if inRun then encodeTitleAux true rest else '↲' :: encodeTitleAux true rest)
    else c :: encodeTitleAux false rest

/-- renderers.ts encodeTitle: newline-run replacement followed by html-entities encode. -/
def encodeTitle (title : Str) : Str := encode (encodeTitleAux false title)

/-- renderers.ts renderBookmarkHeader. urlHostname models the external WHATWG URL
constructor: some hostname when new URL(url) succeeds, none when it throws (the
source swallows the exception and leaves the snippet empty). JavaScript string
truthiness is nonemptiness. -/
def renderBookmarkHeader (urlHostname : Str → Option Str) (id : Nat)
    (url title idSuffix : Str) : Str × Str :=
  let anchor := "bookmark-".toList ++ natToStr id ++ idSuffix
  let header0 : Str :=
    if url ≠ [] ∧ title ≠ [] then
      let urlsnippet : Str :=
        match urlHostname url with
        | some host => " <small class=\"url-snippet\">".toList ++ host ++ "</small>".toList
        | none => []
      "<a href=\"".toList ++ url ++ "\">".toList ++ encodeTitle title ++ "</a>".toList ++ urlsnippet
    else if url ≠ [] then
      "<a href=\"".toList ++ url ++ "\">".toList ++ url ++ "</a>".toList
    else if title ≠ [] then encodeTitle title
    else []
  let header1 := header0 ++ " <a title=\"Link to this bookmark\" href=\"#".toList ++ anchor
      ++ "\" class=\"emojilink\">🔗</a>".toList
  let header2 := header1 ++ " <a title=\"Add a comment\" id=\"add-comment-button-".toList
      ++ natToStr id ++ "\" href=\"#\" class=\"emojilink add-comment-button comment-button\">💌</a>".toList
  let header3 := header2 ++ " <a title=\"See raw snapshot\" href=\"/backup/".toList
      ++ natToStr id ++ "\" class=\"emojilink\">💁</a>".toList
  let header4 := header3 ++ " <a title=\"See just this bookmark (and delete it)\" href=\"/bookmark/".toList
      ++ natToStr id ++ "\" class=\"emojilink\">💥</a>".toList
  let pre := "<div id=\"".toList ++ anchor ++ "\" class=\"bookmark\"><span class=\"bookmark-header\">".toList
      ++ header4 ++ "</span>".toList
  (pre, "</div>".toList)

/-- The id/url/title/numComments context passed to the comment renderer
(renderers.ts CoreBookmark). -/
structure CoreBookmark where
  id : Nat
  url : Str
  title : Str
  numComments : Int
  deriving DecidableEq

/-- The fields of a comment read by the renderer (renderers.ts CoreComment). -/
structure CoreComment where
  createdTime : Int
  id : Nat
  modifiedTime : Int
  content : Str
  siblingIdx : Int
  deriving DecidableEq

/-- A full schema-v4 comment row (db-v4.sql), the renderer's persistence target. -/
structure CommentRowV4 where
  createdTime : Int
  id : Nat
  modifiedTime : Int
  content : Str
  siblingIdx : Int
  innerRender : Str
  fullRender : Str
  renderedTime : Int
  deriving DecidableEq

/-- The core projection of a stored comment row, as read back by
rerenderComment's select of createdTime, id, modifiedTime, content, siblingIdx. -/
def CommentRowV4.core (r : CommentRowV4) : CoreComment :=
  { createdTime := r.createdTime, id := r.id, modifiedTime := r.modifiedTime,
    content := r.content, siblingIdx := r.siblingIdx }

/-- renderers.ts rerenderComment, fragment computation: builds the inner fragment
(comment body, timestamp, links, sibling coda) and the full fragment (inner
wrapped in the bookmark header). toISO models Date.prototype.toISOString as a
function of the epoch timestamp. -/
def rerenderCommentFragments (urlHostname : Str → Option Str) (toISO : Int → Str)
    (comment : CoreComment) (bookmark : CoreBookmark) : Str × Str :=
  let anchor := "comment-".toList ++ natToStr comment.id
  let timestamp :=
    if comment.createdTime ≠ comment.modifiedTime then
      toISO comment.createdTime ++ " → ".toList ++ toISO comment.modifiedTime
    else toISO comment.createdTime
  let anchorLink := " <a title=\"Link to this comment\" href=\"#".toList ++ anchor
      ++ "\" class=\"emojilink\">🔗</a>".toList
  let editLink := " <a title=\"Edit comment\" id=\"edit-comment-button-".toList
      ++ natToStr comment.id ++ "\" href=\"#\" class=\"emojilink edit-comment-button comment-button\">💌</a>".toList
  let codas1 : List Str := ["<span class=\"coda\"> ".toList]
  let codas2 := codas1 ++
    (if comment.siblingIdx < bookmark.numComments then
      ["<a class=\"emojilink coda-prev\" href=\"#bookmark-".toList ++ natToStr bookmark.id
        ++ "-comment-".toList ++ intToStr (add1 comment.siblingIdx) ++ "\">👈</a>".toList]
     else [])
  let codas3 := codas2 ++
    (if comment.siblingIdx > 1 then
      ["<a class=\"emojilink coda-next\" href=\"#bookmark-".toList ++ natToStr bookmark.id
        ++ "-comment-".toList ++ intToStr (add1 comment.siblingIdx (-1)) ++ "\">👉</a>".toList]
     else [])
  let codas4 := codas3 ++
    (if bookmark.numComments > 1 then
      ["<span class=\"coda-this\">".toList ++ intToStr comment.siblingIdx ++ "/".toList
        ++ intToStr bookmark.numComments ++ "</span>".toList]
     else [])
  let codas5 := codas4 ++ ["</span>".toList]
  let coda := joinSep [' '] codas5
  let innerRender := "<div id=\"".toList ++ anchor ++ "\" class=\"comment\"><pre class=\"unrendered\">\n".toList
      ++ encode comment.content ++ "</pre>\n".toList
      ++ anchorLink ++ editLink ++ [' '] ++ timestamp ++ [' '] ++ coda ++ "\n</div>".toList
  let suffix := "-comment-".toList ++ intToStr comment.siblingIdx
  let pp := renderBookmarkHeader urlHostname bookmark.id bookmark.url bookmark.title suffix
  (innerRender, pp.1 ++ innerRender ++ pp.2)

/-- renderers.ts rerenderComment (object-argument form): asserts the bookmark
context is truthy (JavaScript assert on bookmark.id and bookmark.numComments,
none when the assertion throws), computes both fragments, persists
innerRender, fullRender and a fresh renderedTime on the comment row, and
returns the inner fragment together with the updated row. -/
def rerenderComment (urlHostname : Str → Option Str) (toISO : Int → Str)
    (row : CommentRowV4) (bookmark : CoreBookmark) (now : Int) : Option (Str × CommentRowV4) :=
  if bookmark.id = 0 ∨ bookmark.numComments = 0 then none
  else
    let fr := rerenderCommentFragments urlHostname toISO row.core bookmark
    some (fr.1, { row with innerRender := fr.1, fullRender := fr.2, renderedTime := now })

/-- renderers.ts rerenderJustBookmark, the render it persists: header and footer
from renderBookmarkHeader with empty id suffix, around the newest-first comment
inner renders joined by newlines, all three joined by newlines. -/
def rerenderJustBookmarkRender (urlHostname : Str → Option Str) (id : Nat)
    (url title : Str) (renders : List Str) : Str :=
  let pp := renderBookmarkHeader urlHostname id url title []
  joinNL [pp.1, joinNL renders, pp.2]

/-- String.prototype.indexOf of a newline, split form: the part strictly before
the first newline and the part strictly after it, or none when there is no
newline. -/
def firstNewlineSplit : Str → Option (Str × Str)
  | [] => none
  | c :: rest =>
    if c = '\n' then some ([], rest)
    else (firstNewlineSplit rest).map (fun p => (c :: p.1, p.2))

/-- The columns written by fastUpdateBookmarkWithNewComment's update statement. -/
structure BookmarkUpdate where
  render : Str
  renderedTime : Int
  modifiedTime : Int
  numComments : Int
  deriving DecidableEq

/-- renderers.ts fastUpdateBookmarkWithNewComment: splices the new comment
fragment plus a newline immediately after the first newline of the cached
render (the header line), and bumps numComments with add1; none models the
thrown error when the render contains no newline. -/
def fastUpdateBookmarkWithNewComment (bookmarkRender commentRender : Str)
    (numComments : Int) (now : Int) : Option BookmarkUpdate :=
  match firstNewlineSplit bookmarkRender with
  | none => none
  | some p =>
    some { render := (p.1 ++ ['\n']) ++ commentRender ++ '\n' :: p.2,
           renderedTime := now, modifiedTime := now, numComments := add1 numComments }

/-- Iterating fastUpdateBookmarkWithNewComment once per new comment fragment,
feeding each call the render and comment count stored by the previous one. -/
def fastUpdateSeq (now : Int) : Str × Int → List Str → Option (Str × Int)
  | p, [] => some p
  | p, c :: cs =>
    match fastUpdateBookmarkWithNewComment p.1 c p.2 now with
    | none => none
    | some upd => fastUpdateSeq now (upd.render, upd.numComments) cs

/-- A schema-v5 comment row (db-v5.sql): no siblingIdx or numComments columns;
contentOnlyRender and fullRender caches. -/
structure CommentRowV5 where
  id : Nat
  bookmarkId : Nat
  content : Str
  createdTime : Int
  modifiedTime : Int
  contentOnlyRender : Str
  fullRender : Str
  deriving DecidableEq

/-- A schema-v5 bookmark row (db-v5.sql): no numComments column. -/
structure BookmarkRowV5 where
  id : Nat
  userId : Nat
  url : Str
  title : Str
  createdTime : Int
  modifiedTime : Int
  render : Str
  deriving DecidableEq

/-- A schema-v5 backup row. -/
structure BackupRowV5 where
  bookmarkId : Nat
  content : Str
  original : Str
  createdTime : Int
  deriving DecidableEq

/-- A schema-v5 media row: a (path, bookmarkId) pair pointing at a content hash,
unique on (sha256, path, bookmarkId). -/
structure MediaRow where
  path : Str
  bookmarkId : Nat
  sha256 : Str
  createdTime : Int
  deriving DecidableEq

/-- A schema-v5 blob row: content-addressed bytes, sha256 unique. -/
structure BlobRow where
  content : List Nat
  mime : Str
  createdTime : Int
  numBytes : Nat
  sha256 : Str
  deriving DecidableEq

/-- The whole schema-v5 database state touched by the repository operations. -/
structure DbV5 where
  bookmarks : List BookmarkRowV5
  comments : List CommentRowV5
  backups : List BackupRowV5
  media : List MediaRow
  blobs : List BlobRow
  deriving DecidableEq

/-- index.ts SmallBookmark: the id, modifiedTime, url, title projection of a
bookmark row passed around the comment-insertion path. -/
structure SmallBookmark where
  id : Nat
  modifiedTime : Int
  url : Str
  title : Str
  deriving DecidableEq

/-- index.ts renderCommentContentOnly: the comment-body-only fragment. The
JavaScript assert on a truthy comment id holds at every call site because
sqlite rowids are positive. -/
def renderCommentContentOnly (toISO : Int → Str) (comment : CommentRowV5) : Str :=
  let anchor := "comment-".toList ++ natToStr comment.id
  let timestamp :=
    if comment.createdTime ≠ comment.modifiedTime then
      toISO comment.createdTime ++ " → ".toList ++ toISO comment.modifiedTime
    else toISO comment.createdTime
  let anchorLink := " <a title=\"Link to this comment\" href=\"#".toList ++ anchor
      ++ "\" class=\"emojilink\">🔗</a>".toList
  let editLink := " <a title=\"Edit comment\" id=\"edit-comment-button-".toList
      ++ natToStr comment.id ++ "\" href=\"#\" class=\"emojilink edit-comment-button comment-button\">💌</a>".toList
  "<div id=\"".toList ++ anchor ++ "\" class=\"comment\"><pre class=\"unrendered\">\n".toList
      ++ encode comment.content ++ "</pre>\n".toList
      ++ anchorLink ++ editLink ++ [' '] ++ timestamp ++ "\n</div>".toList

/-- index.ts headerMaker, net effect: the bookmark-header span with the anchor's
comment-id slot substituted. The source writes a random placeholder into the
template and replaces its single occurrence with the comment id, which is
modelled by substituting directly; the add-comment button id keeps the literal
PLACEHOLDER_ID text, as in the source. The v5 header does not escape the
title. -/
def headerMakerSpan (urlHostname : Str → Option Str) (b : SmallBookmark) (commentId : Str) : Str :=
  let header0 : Str :=
    if b.url ≠ [] ∧ b.title ≠ [] then
      let urlsnippet : Str :=
        match urlHostname b.url with
        | some host => " <small class=\"url-snippet\">".toList ++ host ++ "</small>".toList
        | none => []
      "<a href=\"".toList ++ b.url ++ "\">".toList ++ b.title ++ "</a>".toList ++ urlsnippet
    else if b.url ≠ [] then
      "<a href=\"".toList ++ b.url ++ "\">".toList ++ b.url ++ "</a>".toList
    else if b.title ≠ [] then b.title
    else []
  let header1 := header0 ++ " <a title=\"Link to this bookmark\" href=\"#bookmark-".toList
      ++ natToStr b.id ++ commentId ++ "\" class=\"emojilink\">🔗</a>".toList
  let header2 := header1
      ++ " <a title=\"Add a comment\" id=\"add-comment-button-PLACEHOLDER_ID\" href=\"#\" class=\"emojilink add-comment-button comment-button\">💌</a>".toList
  let header3 := header2 ++ " <a title=\"See raw snapshot\" href=\"/backup/".toList
      ++ natToStr b.id ++ "\" class=\"emojilink\">💁</a>".toList
  let header4 := header3 ++ " <a title=\"See just this bookmark (and delete it)\" href=\"/bookmark/".toList
      ++ natToStr b.id ++ "\" class=\"emojilink\">💥</a>".toList
  "<span class=\"bookmark-header\">".toList ++ header4 ++ "</span>".toList

/-- One row of the db-v5.sql comment_graph view. -/
structure GraphRow where
  id : Nat
  idx : Nat
  olderSame : Option Bool
  newerSame : Option Bool
  olderId : Option Nat
  newerId : Option Nat
  deriving DecidableEq

/-- The window order used by comment_graph (ORDER BY createdTime); ties, which
SQLite leaves unspecified, are resolved by rowid. -/
def viewLe (c d : CommentRowV5) : Bool :=
  decide (c.createdTime < d.createdTime ∨ (c.createdTime = d.createdTime ∧ c.id ≤ d.id))

/-- Insertion into a createdTime-sorted list of comments. -/
def insertView (c : CommentRowV5) : List CommentRowV5 → List CommentRowV5
  | [] => [c]
  | d :: rest => if viewLe c d then c :: d :: rest else d :: insertView c rest

/-- Sort comments into the comment_graph window order. -/
def viewOrder : List CommentRowV5 → List CommentRowV5
  | [] => []
  | c :: rest => insertView c (viewOrder rest)

/-- comment_graph rows for the window-ordered comment list: done is the already
scanned part of the window, rest the part still ahead; idx is ROW_NUMBER
partitioned by bookmarkId, the older/newer fields are the LAG/LEAD columns
(none models SQL NULL). -/
def graphRows : List CommentRowV5 → List CommentRowV5 → List GraphRow
  | _, [] => []
  | done, c :: rest =>
    { id := c.id,
      idx := 1 + done.countP (fun d => d.bookmarkId == c.bookmarkId),
      olderSame := done.getLast?.map (fun d => d.bookmarkId == c.bookmarkId),
      newerSame := rest.head?.map (fun d => d.bookmarkId == c.bookmarkId),
      olderId := ((done.filter (fun d => d.bookmarkId == c.bookmarkId)).getLast?).map (fun d => d.id),
      newerId := ((rest.filter (fun d => d.bookmarkId == c.bookmarkId)).head?).map (fun d => d.id) }
      :: graphRows (done ++ [c]) rest

/-- The db-v5.sql comment_graph view over the comment table. -/
def commentGraph (comments : List CommentRowV5) : List GraphRow := graphRows [] (viewOrder comments)

/-- JavaScript template interpolation of a nullable id (null prints as the text
null). -/
def optIdToStr : Option Nat → Str
  | none => "null".toList
  | some n => natToStr n

/-- The ternary truthy-check rendering of a nullable SQL boolean. -/
def jsTernaryTrueFalse : Option Bool → Str
  | some true => "true".toList
  | _ => "false".toList

/-- The data-numcomments attribute text stamped into every full render. -/
def numCommentsNeedle (n : Nat) : Str := "data-numcomments=\"".toList ++ natToStr n ++ "\"".toList

/-- The idx-out-of-total indicator text stamped into every full render. -/
def idxNeedle (k n : Nat) : Str := "(".toList ++ natToStr k ++ "/".toList ++ natToStr n ++ ")".toList

/-- index.ts renderAllCommentsForBookmark, per-comment full render template:
wraps the stored content-only render in the bookmark div with the graph
columns and the total comment count interpolated. -/
def fullRenderV5 (urlHostname : Str → Option Str) (b : SmallBookmark) (g : GraphRow)
    (contentOnlyRender : Str) (total : Nat) : Str :=
  let commentId := "-comment-".toList ++ natToStr g.id
  "\n<div id=\"bookmark-".toList ++ natToStr b.id ++ commentId
    ++ "\" class=\"bookmark\"\n    data-bookmarkid=\"".toList ++ natToStr b.id
    ++ "\" \n    ".toList ++ numCommentsNeedle total
    ++ "\n    data-oldersamebookmark=\"".toList ++ jsTernaryTrueFalse g.olderSame
    ++ "\"\n    data-newersamebookmark=\"".toList ++ jsTernaryTrueFalse g.newerSame
    ++ "\">\n  ".toList ++ headerMakerSpan urlHostname b commentId
    ++ "\n  ".toList ++ contentOnlyRender
    ++ "\n  <div class=\"coda\">\n    <a class=\"emojilink coda-prev\" href=\"#bookmark-".toList
    ++ natToStr b.id ++ "-comment-".toList ++ optIdToStr g.newerId
    ++ "\">👈</a>\n    <a class=\"emojilink coda-prev\" href=\"#bookmark-".toList
    ++ natToStr b.id ++ "-comment-".toList ++ optIdToStr g.olderId
    ++ "\">👉</a>\n    ".toList ++ idxNeedle g.idx total
    ++ "\n  </div>\n</div>".toList

/-- The join of the comment table with comment_graph restricted to one bookmark:
for each graph row, the comment row with that id, kept when it belongs to the
bookmark; yields the contentOnlyRender column and the graph columns. -/
def renderAllRows (comments : List CommentRowV5) (b : SmallBookmark) : List (Str × GraphRow) :=
  (commentGraph comments).filterMap (fun g =>
    match comments.find? (fun c => c.id == g.id) with
    | some c => if c.bookmarkId == b.id then some (c.contentOnlyRender, g) else none
    | none => none)

/-- The update statement writing one comment's fullRender by id. -/
def updateFullRender (comments : List CommentRowV5) (id : Nat) (s : Str) : List CommentRowV5 :=
  comments.map (fun c => if c.id == id then { c with fullRender := s } else c)

/-- index.ts renderAllCommentsForBookmark: recompute and persist the fullRender
of every comment of the bookmark, stamping the row count of the joined query
as the comment total. -/
def renderAllCommentsForBookmark (urlHostname : Str → Option Str)
    (comments : List CommentRowV5) (b : SmallBookmark) : List CommentRowV5 :=
  let rows := renderAllRows comments b
  rows.foldl (fun acc r => updateFullRender acc r.2.id (fullRenderV5 urlHostname b r.2 r.1 rows.length)) comments

/-- The sqlite AUTOINCREMENT rowid for a fresh comment insert. -/
def freshCommentId (comments : List CommentRowV5) : Nat :=
  comments.foldr (fun c m => max c.id m) 0 + 1

/-- index.ts insertComment: insert the comment row with empty render caches,
write its content-only render back by id, then fully re-render every comment
of the bookmark. -/
def insertComment (urlHostname : Str → Option Str) (toISO : Int → Str) (now : Int)
    (comments : List CommentRowV5) (b : SmallBookmark) (content : Str) : List CommentRowV5 :=
  let row : CommentRowV5 :=
    { id := freshCommentId comments, bookmarkId := b.id, content := content,
      createdTime := now, modifiedTime := now, contentOnlyRender := [], fullRender := [] }
  let st1 := comments ++ [row]
  let st2 := st1.map (fun c =>
    if c.id == row.id then { c with contentOnlyRender := renderCommentContentOnly toISO row } else c)
  renderAllCommentsForBookmark urlHostname st2 b

/-- index.ts userBookmarkAuth: the requesting user owns the bookmark. -/
def userBookmarkAuth (st : DbV5) (userId bookmarkId : Nat) : Bool :=
  st.bookmarks.any (fun b => b.id == bookmarkId && b.userId == userId)

/-- index.ts merge handler: with both bookmarks owned by the user, repoint the
source bookmark's comments at the destination, delete the source's backup and
media rows (never blobs) and its bookmark row, then set the destination's
modifiedTime to the greatest createdTime among its comments. When that
aggregate is SQL NULL (no comments), the update violates the NOT NULL
constraint and the express handler surfaces a 500 with the earlier writes
already applied; without authorization nothing changes and the status is
401. -/
def mergeHandler (st : DbV5) (userId fromId toId : Nat) : Nat × DbV5 :=
  if userBookmarkAuth st userId toId && userBookmarkAuth st userId fromId then
    let comments1 := st.comments.map (fun c =>
      if c.bookmarkId == fromId then { c with bookmarkId := toId } else c)
    let backups1 := st.backups.filter (fun b => !(b.bookmarkId == fromId))
    let media1 := st.media.filter (fun m => !(m.bookmarkId == fromId))
    let bookmarks1 := st.bookmarks.filter (fun b => !(b.id == fromId))
    match ((comments1.filter (fun c => c.bookmarkId == toId)).map (fun c => c.createdTime)).max? with
    | some t =>
      (200, { st with
                comments := comments1,
                backups := backups1,
                media := media1,
                bookmarks := bookmarks1.map (fun b =>
                  if b.id == toId then { b with modifiedTime := t } else b) })
    | none =>
      (500, { st with
                comments := comments1,
                backups := backups1,
                media := media1,
                bookmarks := bookmarks1 })
  else (401, st)

/-- The better-sqlite3 errors surfaced by an insert in this model. -/
inductive SqliteError where
  | uniqueConstraint
  | otherError
  deriving DecidableEq

/-- Modelled from the spec: uniqueConstraintError (defined in the v5
pathsInterfaces module, which is absent from src/) recognizes the
unique-constraint violations that the spec says are caught and treated as
success-no-op. -/
def uniqueConstraintError : SqliteError → Bool
  | .uniqueConstraint => true
  | .otherError => false

/-- A multer upload file: original filename, buffer, mime type. -/
structure UploadFile where
  originalname : Str
  buffer : List Nat
  mimetype : Str

/-- The media insert statement under the db-v5.sql unique (sha256, path,
bookmarkId) constraint. -/
def mediaInsertRun (media : List MediaRow) (row : MediaRow) : Except SqliteError (List MediaRow) :=
  if media.any (fun r => r.sha256 == row.sha256 && r.path == row.path && r.bookmarkId == row.bookmarkId)
  then .error .uniqueConstraint
  else .ok (media ++ [row])

/-- index.ts media POST handler, per-file loop: insert the media row, swallowing
a unique-constraint violation and rethrowing anything else, then insert the
blob only when no blob with that hash exists. hash models the sha256 digest. -/
def mediaPostLoop (hash : List Nat → Str) (now : Int) (bookmarkId : Nat) :
    DbV5 → List UploadFile → Except SqliteError DbV5
  | st, [] => .ok st
  | st, f :: rest =>
    let sha := hash f.buffer
    let afterMedia : Except SqliteError DbV5 :=
      match mediaInsertRun st.media
          { path := f.originalname, bookmarkId := bookmarkId, sha256 := sha, createdTime := now } with
      | .ok m => .ok { st with media := m }
      | .error e => if uniqueConstraintError e then .ok st else .error e
    match afterMedia with
    | .error e => .error e
    | .ok st1 =>
      let st2 :=
        if (st1.blobs.countP (fun b => b.sha256 == sha)) != 0 then st1
        else { st1 with blobs := st1.blobs ++
          [{ content := f.buffer, mime := f.mimetype, createdTime := now,
             numBytes := f.buffer.length, sha256 := sha }] }
      mediaPostLoop hash now bookmarkId st2 rest

/-- index.ts media POST handler after the authorization and array checks: run
the per-file loop and answer 200 unless an exception escapes. -/
def mediaPostHandler (hash : List Nat → Str) (now : Int) (st : DbV5) (bookmarkId : Nat)
    (files : List UploadFile) : Except SqliteError (Nat × DbV5) :=
  (mediaPostLoop hash now bookmarkId st files).map (fun st1 => (200, st1))

/-- index.ts mediaBookmarkUrl. -/
def mediaBookmarkUrl (bookmarkId : Nat) (url : Str) : Str :=
  "/media/".toList ++ natToStr bookmarkId ++ "/".toList ++ url

/-- index.ts fixUrl: skip empty and data: URLs; keep an already absolute URL;
otherwise resolve it against the parent URL. isAbsoluteUrl models whether new
URL(url) succeeds, resolveUrl the href of new URL(url, parentUrl) with none
when that constructor throws, which the source does not catch (error). -/
def fixUrl (isAbsoluteUrl : Str → Bool) (resolveUrl : Str → Str → Option Str)
    (url parentUrl : Str) : Except Unit (Option Str) :=
  if url.isEmpty || hasLead "data:".toList url then .ok none
  else if isAbsoluteUrl url then .ok (some url)
  else
    match resolveUrl url parentUrl with
    | some href => .ok (some href)
    | none => .error ()

/-- One entry of a parsed srcset (external srcset library): a URL plus its
untouched descriptor payload. -/
structure SrcsetEntry (D : Type) where
  url : Str
  desc : D
  deriving DecidableEq

/-- index.ts processSrcset, entry loop: left to right, skip entries fixUrl
drops, collect the fixed URL and the entry rewritten to the local media
mirror; a fixUrl exception propagates. -/
def processSrcsetEntries {D : Type} (isAbsoluteUrl : Str → Bool)
    (resolveUrl : Str → Str → Option Str) (parentUrl : Str) (bookmarkId : Nat) :
    List (SrcsetEntry D) → Except Unit (List Str × List (SrcsetEntry D))
  | [] => .ok ([], [])
  | e :: rest =>
    match fixUrl isAbsoluteUrl resolveUrl e.url parentUrl with
    | .error _ => .error ()
    | .ok none => processSrcsetEntries isAbsoluteUrl resolveUrl parentUrl bookmarkId rest
    | .ok (some u) =>
      (processSrcsetEntries isAbsoluteUrl resolveUrl parentUrl bookmarkId rest).map
        (fun p => (u :: p.1, { e with url := mediaBookmarkUrl bookmarkId u } :: p.2))

/-- index.ts processSrcset: undefined (none) on an empty srcset string,
otherwise the collected original URLs and the restringified rewritten entry
list. parse and stringifySrcset model the external srcset library. -/
def processSrcset {D : Type} (parse : Str → List (SrcsetEntry D))
    (stringifySrcset : List (SrcsetEntry D) → Str) (isAbsoluteUrl : Str → Bool)
    (resolveUrl : Str → Str → Option Str) (srcset parentUrl : Str) (bookmarkId : Nat) :
    Except Unit (Option (List Str × Str)) :=
  if srcset = [] then .ok none
  else
    (processSrcsetEntries isAbsoluteUrl resolveUrl parentUrl bookmarkId (parse srcset)).map
      (fun p => some (p.1, stringifySrcset p.2))

/-- makeBackupTriggers.ts: the column list used in the generated trigger bodies
is the table's columns minus the ignored ones (the JavaScript Set.has test is
list membership here). -/
def triggerColumns (allColumns ignoreColumns : List String) : List String :=
  allColumns.filter (fun c => decide (c ∉ ignoreColumns))

/-- A _change_log row (makeBackupTriggers.ts); oldvals is the JSON object
rendered as its key-value pairs, none for SQL NULL. -/
structure ChangeLogEntry (V : Type) where
  action : String
  table_name : String
  obj_id : Nat
  oldvals : Option (List (String × V))

/-- The oldvals JSON object built by the generated after-update trigger: over
the non-ignored columns, the json_array triples (column, OLD value, NEW value)
are filtered by oldval IS NOT newval and grouped as column to old value.
Cell values V carry SQL nullability, on which IS NOT is plain distinctness. -/
def updateTriggerOldvals {V : Type} [DecidableEq V] (cols : List String)
    (oldRow newRow : String → V) : List (String × V) :=
  ((cols.map (fun c => (c, oldRow c, newRow c))).filter
    (fun t => decide (t.2.1 ≠ t.2.2))).map (fun t => (t.1, t.2.1))

/-- makeBackupTriggers.ts after-update trigger firing once for an updated row:
append one UPDATE entry with the table name, OLD.id and the changed-old-values
object. -/
def afterUpdateTrigger {V : Type} [DecidableEq V] (tbl : String)
    (allColumns ignoreColumns : List String) (log : List (ChangeLogEntry V))
    (oldRow newRow : String → V) (oldId : Nat) : List (ChangeLogEntry V) :=
  log ++ [{ action := "UPDATE", table_name := tbl, obj_id := oldId,
            oldvals := some (updateTriggerOldvals (triggerColumns allColumns ignoreColumns) oldRow newRow) }]

/-- A schema-v3 comment row (db-v3.sql). -/
structure CommentRowV3 where
  id : Nat
  bookmarkId : Nat
  content : Str
  createdTime : Int
  modifiedTime : Int
  render : Str
  renderedTime : Int
  deriving DecidableEq

/-- A schema-v3 bookmark row (db-v3.sql). -/
structure BookmarkRowV3 where
  id : Nat
  userId : Nat
  url : Str
  title : Str
  createdTime : Int
  modifiedTime : Int
  render : Str
  renderedTime : Int
  deriving DecidableEq

/-- A schema-v4 bookmark row as inserted by the v3-to-v4 migration. -/
structure BookmarkRowV4 where
  id : Nat
  userId : Nat
  url : Str
  title : Str
  createdTime : Int
  modifiedTime : Int
  numComments : Nat
  render : Str
  renderedTime : Int
  deriving DecidableEq

/-- A schema-v4 comment row as inserted by the v3-to-v4 migration. -/
structure MigratedComment where
  id : Nat
  bookmarkId : Nat
  siblingIdx : Nat
  content : Str
  createdTime : Int
  modifiedTime : Int
  innerRender : Str
  fullRender : Str
  renderedTime : Int
  deriving DecidableEq

/-- The bookmark and comment tables of the source and destination databases of
the v3-to-v4 migration (the other tables are copied generically and play no
role in the claims). -/
structure DbV3 where
  bookmarks : List BookmarkRowV3
  comments : List CommentRowV3
  deriving DecidableEq

structure DbV4 where
  bookmarks : List BookmarkRowV4
  comments : List MigratedComment
  deriving DecidableEq

/-- JavaScript Map.get over an insertion-ordered association list. -/
def aget {κ ν : Type} [DecidableEq κ] (m : List (κ × ν)) (k : κ) : Option ν :=
  (m.find? (fun p => decide (p.1 = k))).map (fun p => p.2)

/-- JavaScript Map.set over an insertion-ordered association list: replace in
place or append. -/
def aset {κ ν : Type} [DecidableEq κ] : List (κ × ν) → κ → ν → List (κ × ν)
  | [], k, v => [(k, v)]
  | p :: rest, k, v => if p.1 = k then (k, v) :: rest else p :: aset rest k v

/-- utils.ts groupBy2: fold the array into a map, combining each element with
the group value found so far. -/
def groupBy2 {T U V : Type} [DecidableEq U] (arr : List T) (f : T → U)
    (g : T → Option V → V) : List (U × V) :=
  arr.foldl (fun ret x => aset ret (f x) (g x (aget ret (f x)))) []

/-- Insertion into a createdTime-sorted list of v3 comments (the migration's
order by createdTime asc; SQLite leaves tie order unspecified). -/
def insertByTime (c : CommentRowV3) : List CommentRowV3 → List CommentRowV3
  | [] => [c]
  | d :: rest => if c.createdTime ≤ d.createdTime then c :: d :: rest else d :: insertByTime c rest

/-- The migration's select of all comments ordered by createdTime asc. -/
def sortByTime : List CommentRowV3 → List CommentRowV3
  | [] => []
  | c :: rest => insertByTime c (sortByTime rest)

/-- migrations/v3-to-v4.ts bookmark loop: each bookmark gains numComments from
the per-bookmark count map; a missing or zero (falsy) count is the thrown
no-comments-found error. -/
def migrateBookmarks (nums : List (Nat × Nat)) :
    List BookmarkRowV3 → Except String (List BookmarkRowV4)
  | [] => .ok []
  | old :: rest =>
    match aget nums old.id with
    | none => .error "no comments found"
    | some n =>
      if n = 0 then .error "no comments found"
      else
        (migrateBookmarks nums rest).map (fun tail =>
          ({ id := old.id, userId := old.userId, url := old.url, title := old.title,
             createdTime := old.createdTime, modifiedTime := old.modifiedTime,
             numComments := n, render := old.render, renderedTime := old.renderedTime } : BookmarkRowV4) :: tail)

/-- migrations/v3-to-v4.ts comment loop over the oldest-first comments: each
comment gains the siblingIdx looked up via bookmarkId then comment id, and
duplicates its old render into innerRender and fullRender; a failed lookup is
the thrown assert. -/
def migrateComments (groups : List (Nat × List (Nat × Nat))) :
    List CommentRowV3 → Except String (List MigratedComment)
  | [] => .ok []
  | old :: rest =>
    match (aget groups old.bookmarkId).bind (fun g => aget g old.id) with
    | none => .error "bookmarkId to commentId to sibling idx failed"
    | some siblingIdx =>
      (migrateComments groups rest).map (fun tail =>
        ({ id := old.id, bookmarkId := old.bookmarkId, siblingIdx := siblingIdx,
           content := old.content, createdTime := old.createdTime, modifiedTime := old.modifiedTime,
           innerRender := old.render, fullRender := old.render,
           renderedTime := old.renderedTime } : MigratedComment) :: tail)

/-- migrations/v3-to-v4.ts up, bookmark and comment part: sort the comments
oldest first, build the per-bookmark comment counts and the per-bookmark
comment-id-to-1-based-index maps with groupBy2 (the source increments the
count map inside the same groupBy2 callback; the two maps are built by one
pass over the same sorted list), then migrate both tables. -/
def migrateV3toV4 (src : DbV3) : Except String DbV4 :=
  let sorted := sortByTime src.comments
  let nums : List (Nat × Nat) :=
    groupBy2 sorted (fun c => c.bookmarkId) (fun _ hit => hit.getD 0 + 1)
  let groups : List (Nat × List (Nat × Nat)) :=
    groupBy2 sorted (fun c => c.bookmarkId) (fun c hit =>
      match hit with
      | some g => aset g c.id (g.length + 1)
      | none => [(c.id, 1)])
  match migrateBookmarks nums src.bookmarks with
  | .error e => .error e
  | .ok bs =>
    match migrateComments groups sorted with
    | .error e => .error e
    | .ok cs => .ok { bookmarks := bs, comments := cs }

/-- The 1-based index pairing (id, position) that the migration's groupBy2 pass
builds per bookmark: idxFrom k ids pairs the elements of ids with k+1, k+2, and
so on. -/
def idxFrom : Nat → List Nat → List (Nat × Nat)
  | _, [] => []
  | k, x :: xs => (x, k + 1) :: idxFrom (k + 1) xs

/-- Forgetting the columns the v3-to-v4 migration added, recovering the source
v3 comment row (innerRender and fullRender both came from the old render). -/
def stripMigrated (m : MigratedComment) : CommentRowV3 :=
  { id := m.id, bookmarkId := m.bookmarkId, content := m.content,
    createdTime := m.createdTime, modifiedTime := m.modifiedTime,
    render := m.innerRender, renderedTime := m.renderedTime }

/-- A concrete two-bookmark, two-comment database built through insertComment
(one comment on bookmark 2, then one on bookmark 1, both rendered), used to
exercise the merge handler. -/
def mergeExampleDb : DbV5 :=
  { bookmarks :=
      [{ id := 1, userId := 1, url := ['a'], title := ['a'], createdTime := 0, modifiedTime := 0, render := [] },
       { id := 2, userId := 1, url := ['b'], title := ['b'], createdTime := 0, modifiedTime := 0, render := [] }],
    comments :=
      insertComment (fun _ => none) (fun _ => ['T']) 20
        (insertComment (fun _ => none) (fun _ => ['T']) 10 [] { id := 2, modifiedTime := 0, url := ['u'], title := ['t'] } ['h'])
        { id := 1, modifiedTime := 0, url := ['v'], title := ['s'] } ['y'],
    backups := [{ bookmarkId := 1, content := ['o'], original := ['o'], createdTime := 5 }],
    media := [{ path := ['p'], bookmarkId := 1, sha256 := ['s'], createdTime := 5 }],
    blobs := [{ content := [7], mime := ['m'], createdTime := 5, numBytes := 1, sha256 := ['s'] }] }

/-- A small concrete two-bookmark database with one comment on bookmark 1,
used to exercise the merge handler's success path. -/
def mergeWitnessDb : DbV5 :=
  { bookmarks :=
      [{ id := 1, userId := 1, url := ['a'], title := ['a'], createdTime := 0, modifiedTime := 0, render := [] },
       { id := 2, userId := 1, url := ['b'], title := ['b'], createdTime := 0, modifiedTime := 0, render := [] }],
    comments :=
      [{ id := 5, bookmarkId := 1, content := ['x'], createdTime := 30, modifiedTime := 30,
         contentOnlyRender := [], fullRender := [] }],
    backups := [], media := [], blobs := [] }

/-- A concrete two-bookmark, three-comment v3 database (comments stored
newest-first and interleaved across bookmarks), used to exercise the v3-to-v4
migration. -/
def migrationExampleDb : DbV3 :=
  { bookmarks :=
      [{ id := 1, userId := 1, url := ['a'], title := ['a'], createdTime := 0,
         modifiedTime := 0, render := ['r'], renderedTime := 0 },
       { id := 2, userId := 1, url := ['b'], title := ['b'], createdTime := 0,
         modifiedTime := 0, render := ['s'], renderedTime := 0 }],
    comments :=
      [{ id := 11, bookmarkId := 1, content := ['x'], createdTime := 30, modifiedTime := 30,
         render := ['u'], renderedTime := 30 },
       { id := 12, bookmarkId := 2, content := ['y'], createdTime := 20, modifiedTime := 20,
         render := ['v'], renderedTime := 20 },
       { id := 13, bookmarkId := 1, content := ['z'], createdTime := 10, modifiedTime := 10,
         render := ['w'], renderedTime := 10 }] }

theorem hasLead_append (n t : Str) : hasLead n (n ++ t) = true := by
  induction n with
  | nil => rfl
  | cons c cs ih => simp [hasLead, ih]

theorem containsSeg_of_hasLead (n s : Str) (h : hasLead n s = true) : containsSeg n s = true := by
  cases s with
  | nil => simpa [containsSeg] using h
  | cons c rest => simp [containsSeg, h]

theorem containsSeg_cons (n s : Str) (c : Char) (h : containsSeg n s = true) :
    containsSeg n (c :: s) = true := by
  simp [containsSeg, h]

theorem containsSeg_append_left (n a s : Str) (h : containsSeg n s = true) :
    containsSeg n (a ++ s) = true := by
  induction a with
  | nil => simpa using h
  | cons c cs ih => simpa using containsSeg_cons n (cs ++ s) c ih

theorem containsSeg_append_here (n a t : Str) : containsSeg n (a ++ (n ++ t)) = true :=
  containsSeg_append_left n a (n ++ t) (containsSeg_of_hasLead n (n ++ t) (hasLead_append n t))

theorem firstNewlineSplit_eq_none (s : Str) (h : '\n' ∉ s) : firstNewlineSplit s = none := by
  induction s with
  | nil => rfl
  | cons c rest ih =>
    simp only [List.mem_cons, not_or] at h
    have hc : ¬ (c = '\n') := fun e => h.1 e.symm
    simp [firstNewlineSplit, hc, ih h.2]

theorem firstNewlineSplit_append (a b : Str) (ha : '\n' ∉ a) :
    firstNewlineSplit (a ++ '\n' :: b) = some (a, b) := by
  induction a with
  | nil => simp [firstNewlineSplit]
  | cons c rest ih =>
    simp only [List.mem_cons, not_or] at ha
    have hc : ¬ (c = '\n') := fun e => ha.1 e.symm
    simp [firstNewlineSplit, hc, ih ha.2]

theorem fastUpdateBookmarkWithNewComment_eq (a b c : Str) (n now : Int) (ha : '\n' ∉ a) :
    fastUpdateBookmarkWithNewComment (a ++ '\n' :: b) c n now =
      some { render := a ++ '\n' :: (c ++ '\n' :: b),
             renderedTime := now, modifiedTime := now, numComments := n + 1 } := by
  simp [fastUpdateBookmarkWithNewComment, firstNewlineSplit_append a b ha, add1]

/-- Claim C1, code-bug evidence: renderBookmarkHeader called with the malformed
url consisting of a, newline, b and an absent title returns a first header
fragment containing a literal newline, because the raw url is interpolated
into the anchor unescaped (only the title is newline-escaped); this
contradicts the single-line header invariant. -/
theorem renderBookmarkHeader_newline_bug :
    '\n' ∈ (renderBookmarkHeader (fun _ => none) 1 ('a' :: '\n' :: ['b']) [] []).1 := by decide

/-- Claim C4: on a cached render with a first newline, fastUpdateBookmarkWithNewComment
stores the prefix up to and including that newline, then the new comment
fragment, a newline, and the rest of the old render, and sets numComments to
the old value plus exactly one; on a render with no newline it errors. -/
theorem fastUpdateBookmarkWithNewComment_spec (render commentRender : Str) (n now : Int) :
    (('\n' ∉ render) → fastUpdateBookmarkWithNewComment render commentRender n now = none) ∧
    (∀ a b : Str, render = a ++ '\n' :: b → '\n' ∉ a →
      fastUpdateBookmarkWithNewComment render commentRender n now =
        some { render := a ++ '\n' :: (commentRender ++ '\n' :: b),
               renderedTime := now, modifiedTime := now, numComments := n + 1 }) := by
  constructor
  · intro h
    simp [fastUpdateBookmarkWithNewComment, firstNewlineSplit_eq_none render h]
  · rintro a b rfl ha
    exact fastUpdateBookmarkWithNewComment_eq a b commentRender n now ha

/-- Witness for claim C4 at the concrete render H-newline-C. -/
theorem fastUpdateBookmarkWithNewComment_spec_witness :
    fastUpdateBookmarkWithNewComment "H\nC".toList "N".toList 3 7 =
      some { render := "H\nN\nC".toList, renderedTime := 7, modifiedTime := 7, numComments := 4 } := by
  have h := (fastUpdateBookmarkWithNewComment_spec "H\nC".toList "N".toList 3 7).2
    "H".toList "C".toList (by decide) (by decide)
  rw [h]
  decide

/-- Claim C3: rerenderComment re-invoked with the row it has just persisted and
the same bookmark context computes byte-identical inner and full fragments
(the persisted write only touches the render caches and renderedTime, none of
the inputs of the fragment computation). -/
theorem rerenderComment_idempotent (urlHostname : Str → Option Str) (toISO : Int → Str)
    (row : CommentRowV4) (bookmark : CoreBookmark) (now1 now2 : Int)
    (h1 : bookmark.id ≠ 0) (h2 : bookmark.numComments ≠ 0) :
    ∃ p1 p2 : Str × CommentRowV4,
      rerenderComment urlHostname toISO row bookmark now1 = some p1 ∧
      rerenderComment urlHostname toISO p1.2 bookmark now2 = some p2 ∧
      p2.1 = p1.1 ∧ p2.2.innerRender = p1.2.innerRender ∧ p2.2.fullRender = p1.2.fullRender := by
  have hcond : ¬ (bookmark.id = 0 ∨ bookmark.numComments = 0) := by
    intro h
    cases h with
    | inl h => exact h1 h
    | inr h => exact h2 h
  have key : ∀ (r : CommentRowV4) (m : Int),
      rerenderComment urlHostname toISO r bookmark m =
        some ((rerenderCommentFragments urlHostname toISO r.core bookmark).1,
          { r with innerRender := (rerenderCommentFragments urlHostname toISO r.core bookmark).1,
                   fullRender := (rerenderCommentFragments urlHostname toISO r.core bookmark).2,
                   renderedTime := m }) := by
    intro r m
    unfold rerenderComment
    rw [if_neg hcond]
  exact ⟨_, _, key row now1, key _ now2, rfl, rfl, rfl⟩

/-- Witness for claim C3 at a concrete comment row and bookmark context. -/
theorem rerenderComment_idempotent_witness :
    (⟨3, ['u'], ['t'], 2⟩ : CoreBookmark).id ≠ 0 ∧
    ∃ p1 p2 : Str × CommentRowV4,
      rerenderComment (fun _ => none) (fun _ => ['T'])
        ⟨100, 7, 200, ['h'], 1, [], [], 0⟩ ⟨3, ['u'], ['t'], 2⟩ 11 = some p1 ∧
      rerenderComment (fun _ => none) (fun _ => ['T']) p1.2 ⟨3, ['u'], ['t'], 2⟩ 12 = some p2 ∧
      p2.1 = p1.1 ∧ p2.2.innerRender = p1.2.innerRender ∧ p2.2.fullRender = p1.2.fullRender :=
  ⟨by decide,
   rerenderComment_idempotent (fun _ => none) (fun _ => ['T'])
     ⟨100, 7, 200, ['h'], 1, [], [], 0⟩ ⟨3, ['u'], ['t'], 2⟩ 11 12 (by decide) (by decide)⟩

/-- Claim C6: after makeBackupTriggers installs the triggers for a table with a
set of ignored columns, an UPDATE of a row appends exactly one _change_log
entry, with action UPDATE, the table name, the old row id, and an oldvals
object holding exactly the non-ignored columns whose old value differs from
the new value, each mapped to its old value. -/
theorem afterUpdateTrigger_spec {V : Type} [DecidableEq V] (tbl : String)
    (allColumns ignoreColumns : List String) (log : List (ChangeLogEntry V))
    (oldRow newRow : String → V) (oldId : Nat) :
    ∃ e : ChangeLogEntry V,
      afterUpdateTrigger tbl allColumns ignoreColumns log oldRow newRow oldId = log ++ [e] ∧
      e.action = "UPDATE" ∧ e.table_name = tbl ∧ e.obj_id = oldId ∧
      ∃ kvs, e.oldvals = some kvs ∧
        ∀ c v, (c, v) ∈ kvs ↔ (c ∈ allColumns ∧ c ∉ ignoreColumns ∧ oldRow c ≠ newRow c ∧ v = oldRow c) := by
  refine ⟨_, rfl, rfl, rfl, rfl, _, rfl, ?_⟩
  intro c v
  simp only [updateTriggerOldvals, triggerColumns, List.mem_map, List.mem_filter,
    decide_eq_true_eq, Prod.mk.injEq]
  constructor
  · rintro ⟨t, ⟨⟨x, ⟨hxmem, hxnot⟩, rfl⟩, hne⟩, rfl, rfl⟩
    exact ⟨hxmem, hxnot, hne, rfl⟩
  · rintro ⟨hmem, hnot, hne, rfl⟩
    exact ⟨(c, oldRow c, newRow c), ⟨⟨c, ⟨hmem, hnot⟩, rfl⟩, hne⟩, rfl, rfl⟩

/-- Claim C7: a media insert whose (sha256, path, bookmarkId) triple already
exists hits the unique constraint, the error is caught and treated as success:
the media table is unchanged and the upload endpoint still answers 200. -/
theorem mediaPost_duplicate_noop (hash : List Nat → Str) (now : Int) (st : DbV5)
    (bookmarkId : Nat) (f : UploadFile)
    (hdup : ∃ r ∈ st.media, r.sha256 = hash f.buffer ∧ r.path = f.originalname ∧
      r.bookmarkId = bookmarkId) :
    ∃ st1, mediaPostHandler hash now st bookmarkId [f] = .ok (200, st1) ∧ st1.media = st.media := by
  obtain ⟨r, hr, h1, h2, h3⟩ := hdup
  have hany : (st.media.any (fun q =>
      q.sha256 == hash f.buffer && q.path == f.originalname && q.bookmarkId == bookmarkId)) = true := by
    rw [List.any_eq_true]
    refine ⟨r, hr, ?_⟩
    simp [h1, h2, h3]
  have hins : mediaInsertRun st.media
      { path := f.originalname, bookmarkId := bookmarkId, sha256 := hash f.buffer,
        createdTime := now } = .error .uniqueConstraint := by
    simp [mediaInsertRun, hany]
  refine ⟨if (st.blobs.countP (fun b => b.sha256 == hash f.buffer)) != 0 then st
          else { st with blobs := st.blobs ++
            [{ content := f.buffer, mime := f.mimetype, createdTime := now,
               numBytes := f.buffer.length, sha256 := hash f.buffer }] }, ?_, ?_⟩
  · simp only [mediaPostHandler, mediaPostLoop, hins, uniqueConstraintError]
    rfl
  · split <;> rfl

/-- Witness for claim C7 at a concrete database already holding the inserted
(sha256, path, bookmarkId) triple. -/
theorem mediaPost_duplicate_noop_witness :
    ∃ st1, mediaPostHandler (fun _ => ['h']) 9
        { bookmarks := [], comments := [], backups := [],
          media := [{ path := ['p'], bookmarkId := 7, sha256 := ['h'], createdTime := 0 }],
          blobs := [] } 7
        [{ originalname := ['p'], buffer := [1], mimetype := ['m'] }] = .ok (200, st1) ∧
      st1.media = [{ path := ['p'], bookmarkId := 7, sha256 := ['h'], createdTime := 0 }] :=
  mediaPost_duplicate_noop (fun _ => ['h']) 9
    { bookmarks := [], comments := [], backups := [],
      media := [{ path := ['p'], bookmarkId := 7, sha256 := ['h'], createdTime := 0 }],
      blobs := [] } 7
    { originalname := ['p'], buffer := [1], mimetype := ['m'] }
    ⟨{ path := ['p'], bookmarkId := 7, sha256 := ['h'], createdTime := 0 },
      by decide, by decide, by decide, by decide⟩

theorem processSrcsetEntries_spec {D : Type} (isAbs : Str → Bool)
    (resolve : Str → Str → Option Str) (parentUrl : Str) (bookmarkId : Nat)
    (l : List (SrcsetEntry D))
    (habs : ∀ e ∈ l, e.url.isEmpty = false → hasLead "data:".toList e.url = false →
      isAbs e.url = false → (resolve e.url parentUrl).isSome = true) :
    processSrcsetEntries isAbs resolve parentUrl bookmarkId l =
      .ok (((l.filter (fun e => !(e.url.isEmpty || hasLead "data:".toList e.url))).map
              (fun e => if isAbs e.url then e.url else (resolve e.url parentUrl).getD [])),
           ((l.filter (fun e => !(e.url.isEmpty || hasLead "data:".toList e.url))).map
              (fun e => { e with url := mediaBookmarkUrl bookmarkId (if isAbs e.url then e.url else (resolve e.url parentUrl).getD []) }))) := by
  induction l with
  | nil => rfl
  | cons e rest ih =>
    have hrest := ih (fun x hx => habs x (List.mem_cons_of_mem e hx))
    cases h1 : e.url.isEmpty with
    | true =>
      have he : e.url = [] := by simpa using h1
      simp [processSrcsetEntries, fixUrl, h1, he, hrest]
    | false =>
      have hne : e.url ≠ [] := by simpa using h1
      cases h2 : hasLead "data:".toList e.url with
      | true =>
        have h2x : hasLead ['d', 'a', 't', 'a', ':'] e.url = true := h2
        simp [processSrcsetEntries, fixUrl, h1, h2x, hrest]
      | false =>
        have h2x : hasLead ['d', 'a', 't', 'a', ':'] e.url = false := h2
        cases habsCase : isAbs e.url with
        | true => simp [processSrcsetEntries, fixUrl, h1, h2x, hne, habsCase, hrest, Except.map]
        | false =>
          obtain ⟨href, hres⟩ :=
            Option.isSome_iff_exists.mp (habs e (List.mem_cons_self e rest) h1 h2 habsCase)
          simp [processSrcsetEntries, fixUrl, h1, h2x, hne, habsCase, hres, hrest, Except.map]

/-- Claim C10: processSrcset returns undefined exactly on the empty srcset
string; otherwise it drops the entries whose URL is empty or a data: URL,
resolves every remaining non-absolute URL against the parent URL, returns the
resulting absolute URLs in entry order, and rewrites each kept entry's URL in
the restringified srcset to /media/bookmarkId/absoluteUrl (provided every kept
entry resolves, since a URL-constructor exception would propagate instead). -/
theorem processSrcset_spec {D : Type} (parse : Str → List (SrcsetEntry D))
    (stringifySrcset : List (SrcsetEntry D) → Str) (isAbs : Str → Bool)
    (resolve : Str → Str → Option Str) (srcset parentUrl : Str) (bookmarkId : Nat)
    (habs : ∀ e ∈ parse srcset, e.url.isEmpty = false → hasLead "data:".toList e.url = false →
      isAbs e.url = false → (resolve e.url parentUrl).isSome = true) :
    (srcset = [] →
      processSrcset parse stringifySrcset isAbs resolve srcset parentUrl bookmarkId = .ok none) ∧
    (srcset ≠ [] →
      processSrcset parse stringifySrcset isAbs resolve srcset parentUrl bookmarkId =
        .ok (some
          ((((parse srcset).filter (fun e => !(e.url.isEmpty || hasLead "data:".toList e.url))).map
              (fun e => if isAbs e.url then e.url else (resolve e.url parentUrl).getD [])),
           stringifySrcset
            (((parse srcset).filter (fun e => !(e.url.isEmpty || hasLead "data:".toList e.url))).map
              (fun e => { e with url := mediaBookmarkUrl bookmarkId (if isAbs e.url then e.url else (resolve e.url parentUrl).getD []) }))))) := by
  constructor
  · intro h
    simp [processSrcset, h]
  · intro h
    simp [processSrcset, h, processSrcsetEntries_spec isAbs resolve parentUrl bookmarkId
      (parse srcset) habs, Except.map]

/-- Witness for claim C10 at a concrete two-entry srcset (one data: entry to
drop, one relative entry to resolve). -/
theorem processSrcset_spec_witness :
    processSrcset (fun _ => ([⟨"data:x".toList, ()⟩, ⟨"rel".toList, ()⟩] : List (SrcsetEntry Unit)))
      (fun l => joinSep [','] (l.map (fun e => e.url))) (fun _ => false)
      (fun u p => some (p ++ u)) "s".toList "P/".toList 7 =
      .ok (some (["P/rel".toList], "/media/7/P/rel".toList)) := by
  have h := (processSrcset_spec (fun _ => ([⟨"data:x".toList, ()⟩, ⟨"rel".toList, ()⟩] : List (SrcsetEntry Unit)))
    (fun l => joinSep [','] (l.map (fun e => e.url))) (fun _ => false)
    (fun u p => some (p ++ u)) "s".toList "P/".toList 7 (by decide)).2 (by decide)
  rw [h]
  rfl

theorem fastUpdate_step (pre post c r : Str) (rs : List Str) (hpre : '\n' ∉ pre) (n now : Int) :
    fastUpdateBookmarkWithNewComment (joinNL [pre, joinNL (r :: rs), post]) c n now =
      some { render := joinNL [pre, joinNL (c :: r :: rs), post],
             renderedTime := now, modifiedTime := now, numComments := n + 1 } := by
  have h1 : joinNL [pre, joinNL (r :: rs), post] =
      pre ++ '\n' :: (joinNL (r :: rs) ++ '\n' :: post) := by
    simp [joinNL, joinSep]
  have h2 : joinNL [pre, joinNL (c :: r :: rs), post] =
      pre ++ '\n' :: ((c ++ '\n' :: joinNL (r :: rs)) ++ '\n' :: post) := by
    simp [joinNL, joinSep]
  rw [h1, fastUpdateBookmarkWithNewComment_eq pre (joinNL (r :: rs) ++ '\n' :: post) c n now hpre, h2]
  simp [List.append_assoc]

theorem fastUpdateSeq_joinNL (pre post : Str) (hpre : '\n' ∉ pre) (now : Int) :
    ∀ (cs : List Str) (r : Str) (rs : List Str) (n : Int),
      fastUpdateSeq now (joinNL [pre, joinNL (r :: rs), post], n) cs =
        some (joinNL [pre, joinNL (cs.reverse ++ (r :: rs)), post], n + (cs.length : Int)) := by
  intro cs
  induction cs with
  | nil =>
    intro r rs n
    simp [fastUpdateSeq]
  | cons c cs ih =>
    intro r rs n
    simp only [fastUpdateSeq, fastUpdate_step pre post c r rs hpre n now]
    rw [ih c (r :: rs) (n + 1)]
    have hl : (c :: cs).reverse ++ (r :: rs) = cs.reverse ++ (c :: r :: rs) := by simp
    have hn : (n + 1) + (cs.length : Int) = n + ((c :: cs).length : Int) := by
      simp [List.length_cons]
      ring
    rw [hl, hn]

/-- Claim C2, amended: for a bookmark whose header line contains no newline and
whose cached render was computed by rerenderJustBookmark over at least one
comment, applying fastUpdateBookmarkWithNewComment once per new comment yields
exactly the render rerenderJustBookmark would recompute from scratch over the
same newest-first comments (and the count grows by the number of additions). -/
theorem fastUpdate_rerender_converge (urlHostname : Str → Option Str) (id : Nat)
    (url title : Str) (renders cs : List Str) (n now : Int)
    (hpre : '\n' ∉ (renderBookmarkHeader urlHostname id url title []).1)
    (hne : renders ≠ []) :
    fastUpdateSeq now (rerenderJustBookmarkRender urlHostname id url title renders, n) cs =
      some (rerenderJustBookmarkRender urlHostname id url title (cs.reverse ++ renders),
            n + (cs.length : Int)) := by
  cases renders with
  | nil => exact absurd rfl hne
  | cons r rs =>
    show fastUpdateSeq now (joinNL [(renderBookmarkHeader urlHostname id url title []).1,
        joinNL (r :: rs), (renderBookmarkHeader urlHostname id url title []).2], n) cs = _
    rw [fastUpdateSeq_joinNL (renderBookmarkHeader urlHostname id url title []).1
      (renderBookmarkHeader urlHostname id url title []).2 hpre now cs r rs n]
    rfl

/-- Claim C2, counterexample: starting from the cached render of a bookmark
with zero comments, one fast update and a from-scratch re-render disagree (the
fast path keeps the blank comments line, leaving an extra empty line). -/
theorem fastUpdate_rerender_counterexample :
    (fastUpdateSeq 0 (rerenderJustBookmarkRender (fun _ => none) 1 ['u'] [] [], 0) [['c']]).map
        (fun p => p.1) ≠
      some (rerenderJustBookmarkRender (fun _ => none) 1 ['u'] [] [['c']]) := by decide

/-- Witness for the amended claim C2 at a concrete bookmark with one existing
comment render and one addition. -/
theorem fastUpdate_rerender_converge_witness :
    fastUpdateSeq 5 (rerenderJustBookmarkRender (fun _ => none) 1 ['u'] [] [['r']], 2) [['c']] =
      some (rerenderJustBookmarkRender (fun _ => none) 1 ['u'] [] [['c'], ['r']], 3) := by
  have h := fastUpdate_rerender_converge (fun _ => none) 1 ['u'] [] [['r']] [['c']] 2 5
    (by decide) (by decide)
  simpa using h

theorem find?_key_eq {α : Type} (key : α → Nat) :
    ∀ (l : List α), ((l.map key).Nodup) → ∀ a ∈ l, l.find? (fun x => key x == key a) = some a := by
  intro l
  induction l with
  | nil =>
    intro _ a ha
    cases ha
  | cons d rest ih =>
    intro hn a ha
    rw [List.map_cons, List.nodup_cons] at hn
    rcases List.mem_cons.mp ha with rfl | hmem
    · simp [List.find?]
    · have hne : (key d == key a) = false := by
        cases h : (key d == key a) with
        | false => rfl
        | true =>
          exact absurd (by rw [eq_of_beq h]; exact List.mem_map_of_mem key hmem) hn.1
      rw [List.find?_cons_of_neg _ (by simp [hne]), ih hn.2 a hmem]

theorem insertView_perm (c : CommentRowV5) (l : List CommentRowV5) :
    (insertView c l).Perm (c :: l) := by
  induction l with
  | nil => exact List.Perm.refl _
  | cons d rest ih =>
    rw [insertView]
    split
    · exact List.Perm.refl _
    · exact ((ih.cons d).trans (List.Perm.swap c d rest))

theorem viewOrder_perm (l : List CommentRowV5) : (viewOrder l).Perm l := by
  induction l with
  | nil => exact List.Perm.refl _
  | cons c rest ih => exact (insertView_perm c (viewOrder rest)).trans (ih.cons c)

theorem le_foldr_max (c : CommentRowV5) :
    ∀ l : List CommentRowV5, c ∈ l → c.id ≤ l.foldr (fun x m => max x.id m) 0 := by
  intro l
  induction l with
  | nil => intro h; cases h
  | cons d rest ih =>
    intro h
    rcases List.mem_cons.mp h with rfl | h
    · exact Nat.le_max_left _ _
    · exact le_trans (ih h) (Nat.le_max_right _ _)

theorem freshCommentId_gt (comments : List CommentRowV5) (c : CommentRowV5) (hc : c ∈ comments) :
    c.id < freshCommentId comments :=
  Nat.lt_succ_of_le (le_foldr_max c comments hc)

theorem graphRows_map_id :
    ∀ (v done : List CommentRowV5), (graphRows done v).map (fun g => g.id) = v.map (fun c => c.id) := by
  intro v
  induction v with
  | nil => intro done; rfl
  | cons c rest ih =>
    intro done
    simp [graphRows, ih]

theorem graphRows_exists :
    ∀ (v1 done v2 : List CommentRowV5) (c : CommentRowV5),
      ∃ g ∈ graphRows done (v1 ++ c :: v2), g.id = c.id ∧
        g.idx = 1 + (done ++ v1).countP (fun d => d.bookmarkId == c.bookmarkId) := by
  intro v1
  induction v1 with
  | nil =>
    intro done v2 c
    exact ⟨_, List.mem_cons_self _ _, rfl, by simp [graphRows]⟩
  | cons d v1 ih =>
    intro done v2 c
    obtain ⟨g, hg, hid, hidx⟩ := ih (done ++ [d]) v2 c
    refine ⟨g, ?_, hid, ?_⟩
    · rw [List.cons_append, graphRows]
      exact List.mem_cons_of_mem _ hg
    · rw [hidx]
      congr 2
      simp

theorem filterMap_snd_sublist {α β : Type} (F : α → Option (β × α))
    (hF : ∀ a p, F a = some p → p.2 = a) :
    ∀ l : List α, ((l.filterMap F).map (fun r => r.2)).Sublist l := by
  intro l
  induction l with
  | nil => simp
  | cons a l ih =>
    rw [List.filterMap_cons]
    cases hFa : F a with
    | none => exact List.Sublist.cons a ih
    | some p =>
      rw [List.map_cons, hF a p hFa]
      exact List.Sublist.cons₂ a ih

theorem renderAllRows_snd_sublist (comments : List CommentRowV5) (b : SmallBookmark) :
    ((renderAllRows comments b).map (fun r => r.2)).Sublist (commentGraph comments) := by
  apply filterMap_snd_sublist
  intro g pr h
  split at h
  · split at h
    · cases h
      rfl
    · exact Option.noConfusion h
  · exact Option.noConfusion h

theorem renderAllRows_ids_nodup (comments : List CommentRowV5) (b : SmallBookmark)
    (hn : (comments.map (fun c => c.id)).Nodup) :
    ((renderAllRows comments b).map (fun r => r.2.id)).Nodup := by
  have h1 : ((viewOrder comments).map (fun c => c.id)).Nodup :=
    (((viewOrder_perm comments).map (fun c => c.id)).nodup_iff).mpr hn
  have h2 : ((commentGraph comments).map (fun g => g.id)).Nodup := by
    rw [commentGraph, graphRows_map_id]
    exact h1
  have h3 := (renderAllRows_snd_sublist comments b).map (fun g => g.id)
  rw [List.map_map] at h3
  exact h2.sublist h3

theorem graphRows_filterMap_length (comments : List CommentRowV5) (b : SmallBookmark)
    (hn : (comments.map (fun c => c.id)).Nodup) :
    ∀ (v done : List CommentRowV5), (∀ x ∈ v, x ∈ comments) →
      ((graphRows done v).filterMap (fun g =>
        match comments.find? (fun c => c.id == g.id) with
        | some c => if c.bookmarkId == b.id then some (c.contentOnlyRender, g) else none
        | none => none)).length = v.countP (fun c => c.bookmarkId == b.id) := by
  intro v
  induction v with
  | nil => intro done _; rfl
  | cons c v ih =>
    intro done hv
    have hc : c ∈ comments := hv c (List.mem_cons_self c v)
    have hfind : comments.find? (fun x => x.id == c.id) = some c :=
      find?_key_eq (fun x => x.id) comments hn c hc
    have hv' : ∀ x ∈ v, x ∈ comments := fun x hx => hv x (List.mem_cons_of_mem c hx)
    have ih2 := ih (done ++ [c]) hv'
    simp only [beq_iff_eq] at ih2
    cases hb : (c.bookmarkId == b.id) with
    | true =>
      have hb2 : c.bookmarkId = b.id := eq_of_beq hb
      simp [graphRows, List.filterMap_cons, hfind, hb2, List.countP_cons, ih2]
    | false =>
      have hb2 : ¬ (c.bookmarkId = b.id) := by
        intro e
        rw [e] at hb
        simp at hb
      simp [graphRows, List.filterMap_cons, hfind, hb2, List.countP_cons, ih2]

theorem renderAllRows_length (comments : List CommentRowV5) (b : SmallBookmark)
    (hn : (comments.map (fun c => c.id)).Nodup) :
    (renderAllRows comments b).length = comments.countP (fun c => c.bookmarkId == b.id) := by
  rw [renderAllRows, commentGraph,
    graphRows_filterMap_length comments b hn (viewOrder comments) []
      (fun x hx => ((viewOrder_perm comments).mem_iff).mp hx)]
  exact (viewOrder_perm comments).countP_eq _

theorem renderAllRows_covers (comments : List CommentRowV5) (b : SmallBookmark)
    (hn : (comments.map (fun c => c.id)).Nodup) (c : CommentRowV5) (hc : c ∈ comments)
    (hb : c.bookmarkId = b.id) :
    ∃ g : GraphRow, (c.contentOnlyRender, g) ∈ renderAllRows comments b ∧ g.id = c.id ∧
      1 ≤ g.idx ∧ g.idx ≤ (renderAllRows comments b).length := by
  have hcv : c ∈ viewOrder comments := ((viewOrder_perm comments).mem_iff).mpr hc
  obtain ⟨v1, v2, hsplit⟩ := List.append_of_mem hcv
  obtain ⟨g, hg, hid, hidx⟩ := graphRows_exists v1 [] v2 c
  simp only [List.nil_append] at hidx
  have hgmem : g ∈ commentGraph comments := by
    rw [commentGraph, hsplit]
    exact hg
  have hbeq : (c.bookmarkId == b.id) = true := by simp [hb]
  refine ⟨g, ?_, hid, ?_, ?_⟩
  · rw [renderAllRows]
    apply List.mem_filterMap.mpr
    refine ⟨g, hgmem, ?_⟩
    rw [hid, find?_key_eq (fun x => x.id) comments hn c hc]
    simp [hbeq]
  · omega
  · rw [renderAllRows_length comments b hn, ← (viewOrder_perm comments).countP_eq, hsplit,
      List.countP_append, List.countP_cons]
    simp only [hb] at hidx
    rw [hidx, hbeq]
    simp
    omega

theorem foldl_update_eq (u : Str → Option Str) (b : SmallBookmark) (N : Nat) :
    ∀ (rows : List (Str × GraphRow)) (acc : List CommentRowV5),
      ((rows.map (fun r => r.2.id)).Nodup) →
      rows.foldl (fun acc r => updateFullRender acc r.2.id (fullRenderV5 u b r.2 r.1 N)) acc =
        acc.map (fun c =>
          match rows.find? (fun r => r.2.id == c.id) with
          | some r => { c with fullRender := fullRenderV5 u b r.2 r.1 N }
          | none => c) := by
  intro rows
  induction rows with
  | nil =>
    intro acc _
    simp
  | cons r rows ih =>
    intro acc hn
    rw [List.map_cons, List.nodup_cons] at hn
    rw [List.foldl_cons, ih (updateFullRender acc r.2.id (fullRenderV5 u b r.2 r.1 N)) hn.2,
      updateFullRender, List.map_map]
    apply List.map_congr_left
    intro c hc
    simp only [Function.comp]
    by_cases hcr : (c.id == r.2.id) = true
    · rw [if_pos hcr]
      have hcid : c.id = r.2.id := eq_of_beq hcr
      have hnone : rows.find? (fun q => q.2.id ==
          ({ c with fullRender := fullRenderV5 u b r.2 r.1 N } : CommentRowV5).id) = none := by
        apply List.find?_eq_none.mpr
        intro q hq
        simp only []
        intro hbeq
        apply hn.1
        rw [← hcid, ← eq_of_beq hbeq]
        exact List.mem_map_of_mem (fun x => x.2.id) hq
      rw [hnone]
      have hrc : (r.2.id == c.id) = true := by simp [hcid]
      have hfp : ((r :: rows).find? (fun q => q.2.id == c.id)) = some r :=
        List.find?_cons_of_pos _ hrc
      rw [hfp]
    · rw [if_neg hcr]
      have hrc : ¬ ((fun q => q.2.id == c.id) r = true) := by
        simp only []
        intro h
        exact hcr (by simp [eq_of_beq h])
      have hfn : ((r :: rows).find? (fun q => q.2.id == c.id)) =
          rows.find? (fun q => q.2.id == c.id) :=
        List.find?_cons_of_neg _ hrc
      rw [hfn]

theorem hasLead_extend (n : Str) : ∀ (a s : Str), hasLead n a = true → hasLead n (a ++ s) = true := by
  induction n with
  | nil => intro a s _; rfl
  | cons c n ih =>
    intro a s h
    cases a with
    | nil => exact absurd h (by simp [hasLead])
    | cons d a =>
      rw [List.cons_append]
      rw [hasLead] at h ⊢
      rcases Bool.and_eq_true_iff.mp h with ⟨h1, h2⟩
      rw [h1, ih a s h2]
      rfl

theorem hasLead_refl (n : Str) : hasLead n n = true := by
  induction n with
  | nil => rfl
  | cons c n ih => simp [hasLead, ih]

theorem containsSeg_nil_needle (s : Str) : containsSeg [] s = true := by
  cases s <;> simp [containsSeg, hasLead]

theorem containsSeg_append_right (n : Str) : ∀ (a s : Str), containsSeg n a = true →
    containsSeg n (a ++ s) = true := by
  intro a
  induction a with
  | nil =>
    intro s h
    have hn : n = [] := by
      cases n with
      | nil => rfl
      | cons c m => exact absurd h (by simp [containsSeg, hasLead])
    rw [hn, List.nil_append]
    exact containsSeg_nil_needle s
  | cons c a ih =>
    intro s h
    rw [containsSeg] at h
    rw [List.cons_append, containsSeg]
    rcases Bool.or_eq_true_iff.mp h with h1 | h2
    · rw [← List.cons_append, hasLead_extend n (c :: a) s h1]
      rfl
    · rw [ih s h2]
      simp

theorem containsSeg_refl (n : Str) : containsSeg n n = true :=
  containsSeg_of_hasLead n n (hasLead_refl n)

theorem fullRenderV5_contains_num (u : Str → Option Str) (b : SmallBookmark) (g : GraphRow)
    (cr : Str) (n : Nat) :
    containsSeg (numCommentsNeedle n) (fullRenderV5 u b g cr n) = true := by
  simp only [fullRenderV5]
  iterate 19 apply containsSeg_append_right
  apply containsSeg_append_left
  exact containsSeg_refl _

theorem fullRenderV5_contains_idx (u : Str → Option Str) (b : SmallBookmark) (g : GraphRow)
    (cr : Str) (n : Nat) :
    containsSeg (idxNeedle g.idx n) (fullRenderV5 u b g cr n) = true := by
  simp only [fullRenderV5]
  iterate 1 apply containsSeg_append_right
  apply containsSeg_append_left
  exact containsSeg_refl _

theorem nodup_ids_append_fresh (comments : List CommentRowV5)
    (hids : (comments.map (fun c => c.id)).Nodup) (row : CommentRowV5)
    (hrow : row.id = freshCommentId comments) (f : CommentRowV5 → CommentRowV5)
    (hf : ∀ c, (f c).id = c.id) :
    (((comments ++ [row]).map f).map (fun c => c.id)).Nodup := by
  have hmm : ((comments ++ [row]).map f).map (fun c => c.id) =
      (comments ++ [row]).map (fun c => c.id) := by
    rw [List.map_map]
    apply List.map_congr_left
    intro a _
    exact hf a
  rw [hmm, List.map_append]
  apply List.Nodup.append hids (List.nodup_singleton _)
  intro x hx hx2
  obtain ⟨c0, hc0, rfl⟩ := List.mem_map.mp hx
  simp only [List.map_cons, List.map_nil, List.mem_singleton] at hx2
  rw [hrow] at hx2
  exact absurd hx2 (Nat.ne_of_lt (freshCommentId_gt comments c0 hc0))

theorem renderAll_renders_current_count (u : Str → Option Str) (comments : List CommentRowV5)
    (b : SmallBookmark) (hn : (comments.map (fun c => c.id)).Nodup) :
    ∀ c ∈ renderAllCommentsForBookmark u comments b, c.bookmarkId = b.id →
      (containsSeg (numCommentsNeedle ((renderAllCommentsForBookmark u comments b).countP
          (fun d => d.bookmarkId == b.id))) c.fullRender = true ∧
       ∃ k, 1 ≤ k ∧
         k ≤ (renderAllCommentsForBookmark u comments b).countP (fun d => d.bookmarkId == b.id) ∧
         containsSeg (idxNeedle k ((renderAllCommentsForBookmark u comments b).countP
           (fun d => d.bookmarkId == b.id))) c.fullRender = true) := by
  have hrows := renderAllRows_ids_nodup comments b hn
  have hre : renderAllCommentsForBookmark u comments b =
      comments.map (fun c =>
        match (renderAllRows comments b).find? (fun r => r.2.id == c.id) with
        | some r => { c with fullRender := fullRenderV5 u b r.2 r.1 (renderAllRows comments b).length }
        | none => c) := by
    rw [renderAllCommentsForBookmark]
    exact foldl_update_eq u b (renderAllRows comments b).length (renderAllRows comments b)
      comments hrows
  have hcount : (renderAllCommentsForBookmark u comments b).countP (fun d => d.bookmarkId == b.id) =
      comments.countP (fun d => d.bookmarkId == b.id) := by
    rw [hre, List.countP_map]
    apply List.countP_congr
    intro a ha
    cases hf : (renderAllRows comments b).find? (fun r => r.2.id == a.id) <;>
      simp [Function.comp, hf]
  have hN : (renderAllCommentsForBookmark u comments b).countP (fun d => d.bookmarkId == b.id) =
      (renderAllRows comments b).length := by
    rw [hcount, renderAllRows_length comments b hn]
  intro c hc hcb
  rw [hre] at hc
  obtain ⟨c0, hc0, hFc⟩ := List.mem_map.mp hc
  have hbid : c0.bookmarkId = b.id := by
    rw [← hcb, ← hFc]
    cases hf : (renderAllRows comments b).find? (fun r => r.2.id == c0.id) <;> simp [hf]
  obtain ⟨g, hgrows, hgid, hk1, hk2⟩ := renderAllRows_covers comments b hn c0 hc0 hbid
  have hfindrow : (renderAllRows comments b).find? (fun r => r.2.id == c0.id) =
      some (c0.contentOnlyRender, g) := by
    rw [← hgid]
    exact find?_key_eq (fun r => r.2.id) (renderAllRows comments b) hrows
      (c0.contentOnlyRender, g) hgrows
  have hfull : c.fullRender =
      fullRenderV5 u b g c0.contentOnlyRender (renderAllRows comments b).length := by
    rw [← hFc]
    simp [hfindrow]
  constructor
  · rw [hfull, hN]
    exact fullRenderV5_contains_num u b g c0.contentOnlyRender _
  · refine ⟨g.idx, hk1, ?_, ?_⟩
    · rw [hN]
      exact hk2
    · rw [hfull, hN]
      exact fullRenderV5_contains_idx u b g c0.contentOnlyRender _

/-- Claim C9: after insertComment (hence after bookmark creation, comment
addition, or in-place comment edit), every comment belonging to the affected
bookmark has its fullRender rewritten so that its data-numcomments attribute
and the total of its idx-out-of-total indicator equal the bookmark's current
total comment count: no sibling render is left showing a stale count. -/
theorem insertComment_renders_current_count (urlHostname : Str → Option Str) (toISO : Int → Str)
    (now : Int) (comments : List CommentRowV5) (b : SmallBookmark) (content : Str)
    (hids : (comments.map (fun c => c.id)).Nodup) :
    ∀ c ∈ insertComment urlHostname toISO now comments b content, c.bookmarkId = b.id →
      (containsSeg (numCommentsNeedle
          ((insertComment urlHostname toISO now comments b content).countP
            (fun d => d.bookmarkId == b.id))) c.fullRender = true ∧
       ∃ k, 1 ≤ k ∧
         k ≤ (insertComment urlHostname toISO now comments b content).countP
           (fun d => d.bookmarkId == b.id) ∧
         containsSeg (idxNeedle k
           ((insertComment urlHostname toISO now comments b content).countP
             (fun d => d.bookmarkId == b.id))) c.fullRender = true) := by
  intro c hc hcb
  refine renderAll_renders_current_count urlHostname _ b
    (nodup_ids_append_fresh comments hids _ rfl _ ?_) c hc hcb
  intro a
  simp only []
  split <;> rfl

/-- Witness for claim C9: inserting the first comment of bookmark 2 into an
empty comment table. -/
theorem insertComment_renders_current_count_witness :
    ((([] : List CommentRowV5)).map (fun c => c.id)).Nodup ∧
    (∀ c ∈ insertComment (fun _ => none) (fun _ => ['T']) 5 []
        { id := 2, modifiedTime := 0, url := ['u'], title := [] } ['x'],
      c.bookmarkId = ({ id := 2, modifiedTime := 0, url := ['u'], title := [] } : SmallBookmark).id →
      (containsSeg (numCommentsNeedle
          ((insertComment (fun _ => none) (fun _ => ['T']) 5 []
            { id := 2, modifiedTime := 0, url := ['u'], title := [] } ['x']).countP
            (fun d => d.bookmarkId == ({ id := 2, modifiedTime := 0, url := ['u'], title := [] } : SmallBookmark).id))) c.fullRender = true ∧
       ∃ k, 1 ≤ k ∧
         k ≤ (insertComment (fun _ => none) (fun _ => ['T']) 5 []
           { id := 2, modifiedTime := 0, url := ['u'], title := [] } ['x']).countP
           (fun d => d.bookmarkId == ({ id := 2, modifiedTime := 0, url := ['u'], title := [] } : SmallBookmark).id) ∧
         containsSeg (idxNeedle k
           ((insertComment (fun _ => none) (fun _ => ['T']) 5 []
             { id := 2, modifiedTime := 0, url := ['u'], title := [] } ['x']).countP
             (fun d => d.bookmarkId == ({ id := 2, modifiedTime := 0, url := ['u'], title := [] } : SmallBookmark).id))) c.fullRender = true)) :=
  ⟨by simp, insertComment_renders_current_count (fun _ => none) (fun _ => ['T']) 5 []
    { id := 2, modifiedTime := 0, url := ['u'], title := [] } ['x'] (by simp)⟩

/-- Claim C8, amended: merging bookmark A (fromId) into bookmark B (toId), both
owned by the requesting user and distinct, answers 200; afterwards every
comment that referenced A references B (same id, untouched cached render), A's
backup rows, media rows and bookmark row are gone, blobs are untouched, and
B's modifiedTime equals the maximum createdTime among B's post-merge comments.
Schema v5 has no numComments column and the merge refreshes no cached comment
render, so no per-comment rendered count is updated, contrary to the claim. -/
theorem mergeHandler_correct (st : DbV5) (userId fromId toId : Nat)
    (hfrom : userBookmarkAuth st userId fromId = true)
    (hto : userBookmarkAuth st userId toId = true)
    (hne : fromId ≠ toId)
    (hcomment : ∃ cm ∈ st.comments, cm.bookmarkId = fromId ∨ cm.bookmarkId = toId) :
    ∃ st1 t, mergeHandler st userId fromId toId = (200, st1) ∧
      (∀ cm ∈ st.comments, cm.bookmarkId = fromId →
        ∃ cm1 ∈ st1.comments, cm1.id = cm.id ∧ cm1.bookmarkId = toId ∧
          cm1.fullRender = cm.fullRender) ∧
      (∀ bu ∈ st1.backups, bu.bookmarkId ≠ fromId) ∧
      (∀ m ∈ st1.media, m.bookmarkId ≠ fromId) ∧
      (∀ bk ∈ st1.bookmarks, bk.id ≠ fromId) ∧
      st1.blobs = st.blobs ∧
      ((st1.comments.filter (fun cm => cm.bookmarkId == toId)).map
        (fun cm => cm.createdTime)).max? = some t ∧
      (∀ bk ∈ st1.bookmarks, bk.id = toId → bk.modifiedTime = t) ∧
      st1.comments = st.comments.map (fun cm =>
        if cm.bookmarkId == fromId then { cm with bookmarkId := toId } else cm) := by
  have hauth : (userBookmarkAuth st userId toId && userBookmarkAuth st userId fromId) = true := by
    rw [hto, hfrom]
    rfl
  obtain ⟨cm, hcm, hcmb⟩ := hcomment
  have hmem1 : (if cm.bookmarkId == fromId then { cm with bookmarkId := toId } else cm) ∈
      st.comments.map (fun x => if x.bookmarkId == fromId then { x with bookmarkId := toId } else x) :=
    List.mem_map_of_mem _ hcm
  have hbid1 : (if cm.bookmarkId == fromId then { cm with bookmarkId := toId } else cm).bookmarkId
      = toId := by
    rcases hcmb with h | h
    · simp [h]
    · have hx : (cm.bookmarkId == fromId) = false := by
        cases hc : (cm.bookmarkId == fromId) with
        | false => rfl
        | true => exact absurd (h ▸ eq_of_beq hc) (Ne.symm hne)
      rw [if_neg (by simp [hx])]
      exact h
  have hfilne : ((st.comments.map (fun x =>
      if x.bookmarkId == fromId then { x with bookmarkId := toId } else x)).filter
        (fun x => x.bookmarkId == toId)).map (fun x => x.createdTime) ≠ [] := by
    intro he
    have hmem2 : (if cm.bookmarkId == fromId then { cm with bookmarkId := toId } else cm) ∈
        (st.comments.map (fun x =>
          if x.bookmarkId == fromId then { x with bookmarkId := toId } else x)).filter
            (fun x => x.bookmarkId == toId) :=
      List.mem_filter.mpr (And.intro hmem1 (by simp only [hbid1, beq_self_eq_true]))
    have hmem3 := List.mem_map_of_mem (fun x : CommentRowV5 => x.createdTime) hmem2
    rw [he] at hmem3
    cases hmem3
  obtain ⟨t, ht⟩ : ∃ t, (((st.comments.map (fun x =>
      if x.bookmarkId == fromId then { x with bookmarkId := toId } else x)).filter
        (fun x => x.bookmarkId == toId)).map (fun x => x.createdTime)).max? = some t := by
    cases hmx : (((st.comments.map (fun x =>
        if x.bookmarkId == fromId then { x with bookmarkId := toId } else x)).filter
          (fun x => x.bookmarkId == toId)).map (fun x => x.createdTime)).max? with
    | some t => exact ⟨t, rfl⟩
    | none => exact absurd (List.max?_eq_none_iff.mp hmx) hfilne
  have hrun : mergeHandler st userId fromId toId =
      (200, { st with
                comments := st.comments.map (fun x =>
                  if x.bookmarkId == fromId then { x with bookmarkId := toId } else x),
                backups := st.backups.filter (fun x => !(x.bookmarkId == fromId)),
                media := st.media.filter (fun x => !(x.bookmarkId == fromId)),
                bookmarks := (st.bookmarks.filter (fun x => !(x.id == fromId))).map (fun x =>
                  if x.id == toId then { x with modifiedTime := t } else x) }) := by
    simp only [mergeHandler]
    rw [if_pos hauth, ht]
  refine ⟨_, t, hrun, ?_, ?_, ?_, ?_, rfl, ?_, ?_, rfl⟩
  · intro c hc hcb
    refine ⟨(if c.bookmarkId == fromId then { c with bookmarkId := toId } else c),
      List.mem_map_of_mem _ hc, ?_, ?_, ?_⟩ <;> simp [hcb]
  · intro bu hbu
    have := (List.mem_filter.mp hbu).2
    simp at this
    exact this
  · intro m hm
    have := (List.mem_filter.mp hm).2
    simp at this
    exact this
  · intro bk hbk
    obtain ⟨b0, hb0, hfb⟩ := List.mem_map.mp hbk
    have hb0ne := (List.mem_filter.mp hb0).2
    simp at hb0ne
    have hid : bk.id = b0.id := by
      rw [← hfb]
      by_cases h : (b0.id == toId) = true <;> simp [h]
    rw [hid]
    exact hb0ne
  · exact ht
  · intro bk hbk hbkid
    obtain ⟨b0, hb0, hfb⟩ := List.mem_map.mp hbk
    by_cases h : (b0.id == toId) = true
    · rw [← hfb, if_pos h]
    · exfalso
      rw [← hfb, if_neg h] at hbkid
      exact h (by simp [hbkid])

/-- Claim C8, counterexample to the claim as stated: merging bookmark 1 into
bookmark 2 (both owned by user 1, both with one rendered comment) succeeds
with 200 and bookmark 2 then has two comments, yet one of bookmark 2's
comments still carries a fullRender stamped data-numcomments 1 and not 2: the
merge handler updates no comment-count anywhere (schema v5 has no numComments
column and the cached renders are left stale). -/
theorem mergeHandler_claim_counterexample :
    (mergeHandler mergeExampleDb 1 1 2).1 = 200 ∧
    ((mergeHandler mergeExampleDb 1 1 2).2.comments.countP (fun c => c.bookmarkId == 2)) = 2 ∧
    ((mergeHandler mergeExampleDb 1 1 2).2.comments.any (fun c =>
        c.bookmarkId == 2 && containsSeg (numCommentsNeedle 1) c.fullRender
          && !(containsSeg (numCommentsNeedle 2) c.fullRender))) = true := by
  decide

/-- Witness for the amended claim C8 at a concrete two-bookmark database. -/
theorem mergeHandler_correct_witness :
    userBookmarkAuth mergeWitnessDb 1 1 = true ∧
    userBookmarkAuth mergeWitnessDb 1 2 = true ∧
    (∃ cm ∈ mergeWitnessDb.comments, cm.bookmarkId = 1 ∨ cm.bookmarkId = 2) ∧
    (∃ st1 t, mergeHandler mergeWitnessDb 1 1 2 = (200, st1) ∧
      (∀ cm ∈ mergeWitnessDb.comments, cm.bookmarkId = 1 →
        ∃ cm1 ∈ st1.comments, cm1.id = cm.id ∧ cm1.bookmarkId = 2 ∧
          cm1.fullRender = cm.fullRender) ∧
      (∀ bu ∈ st1.backups, bu.bookmarkId ≠ 1) ∧
      (∀ m ∈ st1.media, m.bookmarkId ≠ 1) ∧
      (∀ bk ∈ st1.bookmarks, bk.id ≠ 1) ∧
      st1.blobs = mergeWitnessDb.blobs ∧
      ((st1.comments.filter (fun cm => cm.bookmarkId == 2)).map
        (fun cm => cm.createdTime)).max? = some t ∧
      (∀ bk ∈ st1.bookmarks, bk.id = 2 → bk.modifiedTime = t) ∧
      st1.comments = mergeWitnessDb.comments.map (fun cm =>
        if cm.bookmarkId == 1 then { cm with bookmarkId := 2 } else cm)) :=
  ⟨by decide, by decide,
   ⟨{ id := 5, bookmarkId := 1, content := ['x'], createdTime := 30, modifiedTime := 30,
      contentOnlyRender := [], fullRender := [] }, by decide, Or.inl rfl⟩,
   mergeHandler_correct mergeWitnessDb 1 1 2 (by decide) (by decide) (by decide)
     ⟨{ id := 5, bookmarkId := 1, content := ['x'], createdTime := 30, modifiedTime := 30,
        contentOnlyRender := [], fullRender := [] }, by decide, Or.inl rfl⟩⟩

theorem aget_cons {κ ν : Type} [DecidableEq κ] (a : κ) (v : ν) (m : List (κ × ν)) (k : κ) :
    aget ((a, v) :: m) k = if a = k then some v else aget m k := by
  by_cases h : a = k
  · rw [aget, List.find?_cons_of_pos _ (by simp [h]), if_pos h]
    rfl
  · rw [aget, List.find?_cons_of_neg _ (by simp [h]), if_neg h]
    rfl

theorem aget_aset_self {κ ν : Type} [DecidableEq κ] :
    ∀ (m : List (κ × ν)) (k : κ) (v : ν), aget (aset m k v) k = some v := by
  intro m
  induction m with
  | nil =>
    intro k v
    simp [aset, aget_cons]
  | cons p m ih =>
    obtain ⟨a, w⟩ := p
    intro k v
    rw [aset]
    by_cases h : a = k
    · rw [if_pos h]
      simp [aget_cons]
    · rw [if_neg h, aget_cons, if_neg h]
      exact ih k v

theorem aget_aset_ne {κ ν : Type} [DecidableEq κ] :
    ∀ (m : List (κ × ν)) (k k' : κ) (v : ν), k' ≠ k → aget (aset m k v) k' = aget m k' := by
  intro m
  induction m with
  | nil =>
    intro k k' v hk
    simp [aset, aget_cons, Ne.symm hk, aget]
  | cons p m ih =>
    obtain ⟨a, w⟩ := p
    intro k k' v hk
    rw [aset]
    by_cases h : a = k
    · rw [if_pos h, aget_cons, aget_cons, if_neg (fun e => hk e.symm), if_neg]
      intro e
      exact hk (h ▸ e.symm)
    · rw [if_neg h, aget_cons, aget_cons]
      by_cases h2 : a = k'
      · rw [if_pos h2, if_pos h2]
      · rw [if_neg h2, if_neg h2]
        exact ih k k' v hk

theorem aset_not_mem {κ ν : Type} [DecidableEq κ] :
    ∀ (m : List (κ × ν)) (k : κ) (v : ν), (∀ p ∈ m, p.1 ≠ k) → aset m k v = m ++ [(k, v)] := by
  intro m
  induction m with
  | nil => intro k v _; rfl
  | cons p m ih =>
    obtain ⟨a, w⟩ := p
    intro k v h
    rw [aset, if_neg (h (a, w) (List.mem_cons_self _ _)), List.cons_append,
      ih k v (fun q hq => h q (List.mem_cons_of_mem _ hq))]

theorem idxFrom_length : ∀ (ids : List Nat) (k : Nat), (idxFrom k ids).length = ids.length := by
  intro ids
  induction ids with
  | nil => intro k; rfl
  | cons i ids ih =>
    intro k
    simp [idxFrom, ih]

theorem idxFrom_keys_ne : ∀ (ids : List Nat) (k x : Nat), x ∉ ids →
    ∀ p ∈ idxFrom k ids, p.1 ≠ x := by
  intro ids
  induction ids with
  | nil =>
    intro k x _ p hp
    cases hp
  | cons i ids ih =>
    intro k x hx p hp
    simp only [List.mem_cons, not_or] at hx
    rcases List.mem_cons.mp hp with rfl | hp
    · exact fun e => hx.1 (by rw [← e])
    · exact ih (k + 1) x hx.2 p hp

theorem idxFrom_snoc : ∀ (ids : List Nat) (k x : Nat),
    idxFrom k (ids ++ [x]) = idxFrom k ids ++ [(x, k + ids.length + 1)] := by
  intro ids
  induction ids with
  | nil => intro k x; rfl
  | cons i ids ih =>
    intro k x
    rw [List.cons_append, idxFrom, idxFrom, ih (k + 1) x, List.cons_append]
    have : k + 1 + ids.length + 1 = k + (i :: ids).length + 1 := by
      rw [List.length_cons]
      omega
    rw [this]

theorem aget_idxFrom : ∀ (ids1 : List Nat) (x : Nat) (ids2 : List Nat) (k : Nat), x ∉ ids1 →
    aget (idxFrom k (ids1 ++ x :: ids2)) x = some (k + ids1.length + 1) := by
  intro ids1
  induction ids1 with
  | nil =>
    intro x ids2 k _
    rw [List.nil_append, idxFrom, aget_cons, if_pos rfl]
    rfl
  | cons i ids1 ih =>
    intro x ids2 k hx
    simp only [List.mem_cons, not_or] at hx
    rw [List.cons_append, idxFrom, aget_cons, if_neg (fun e => hx.1 e.symm),
      ih x ids2 (k + 1) hx.2]
    have : k + 1 + ids1.length + 1 = k + (i :: ids1).length + 1 := by
      rw [List.length_cons]
      omega
    rw [this]

theorem nums_fold (b : Nat) : ∀ (l : List CommentRowV3) (acc : List (Nat × Nat)),
    aget (l.foldl (fun ret x => aset ret x.bookmarkId ((aget ret x.bookmarkId).getD 0 + 1)) acc) b =
      (if l.countP (fun c => c.bookmarkId == b) = 0 then aget acc b
       else some ((aget acc b).getD 0 + l.countP (fun c => c.bookmarkId == b))) := by
  intro l
  induction l with
  | nil =>
    intro acc
    simp
  | cons c l ih =>
    intro acc
    rw [List.foldl_cons, ih (aset acc c.bookmarkId ((aget acc c.bookmarkId).getD 0 + 1))]
    by_cases hb : c.bookmarkId = b
    · subst hb
    -- the new comment is counted for this bookmark
      rw [aget_aset_self]
      have hcnt : (c :: l).countP (fun x => x.bookmarkId == c.bookmarkId) =
          l.countP (fun x => x.bookmarkId == c.bookmarkId) + 1 := by
        rw [List.countP_cons]
        simp
      rw [hcnt]
      by_cases h0 : l.countP (fun x => x.bookmarkId == c.bookmarkId) = 0
      · rw [if_pos h0, h0, if_neg (by omega)]
      · rw [if_neg h0, if_neg (by omega)]
        simp only [Option.getD_some]
        congr 1
        omega
    · have hc : ((fun x : CommentRowV3 => x.bookmarkId == b) c) = false := by
        simp [hb]
      have hcnt : (c :: l).countP (fun x => x.bookmarkId == b) =
          l.countP (fun x => x.bookmarkId == b) := by
        rw [List.countP_cons]
        simp [hb]
      rw [hcnt, aget_aset_ne _ _ _ _ (fun e => hb e.symm)]

theorem nums_groupBy2 (l : List CommentRowV3) (b : Nat)
    (hpos : l.countP (fun c => c.bookmarkId == b) ≠ 0) :
    aget (groupBy2 l (fun c => c.bookmarkId) (fun _ hit => hit.getD 0 + 1)) b =
      some (l.countP (fun c => c.bookmarkId == b)) := by
  rw [groupBy2]
  have h := nums_fold b l []
  rw [if_neg hpos] at h
  simpa [aget] using h

theorem groups_fold : ∀ (l : List CommentRowV3) (acc : List (Nat × List (Nat × Nat)))
    (seen : Nat → List Nat),
    (∀ b2, aget acc b2 = (if seen b2 = [] then none else some (idxFrom 0 (seen b2)))) →
    (∀ b2, (seen b2 ++ (l.filter (fun c => c.bookmarkId == b2)).map (fun c => c.id)).Nodup) →
    ∀ b, aget (l.foldl (fun ret x => aset ret x.bookmarkId
        (match aget ret x.bookmarkId with
         | some g => aset g x.id (g.length + 1)
         | none => [(x.id, 1)])) acc) b =
      (if seen b ++ (l.filter (fun c => c.bookmarkId == b)).map (fun c => c.id) = [] then none
       else some (idxFrom 0 (seen b ++ (l.filter (fun c => c.bookmarkId == b)).map (fun c => c.id)))) := by
  intro l
  induction l with
  | nil =>
    intro acc seen hacc hfresh b
    simpa using hacc b
  | cons c l ih =>
    intro acc seen hacc hfresh b
    rw [List.foldl_cons]
    have hcid : c.id ∉ seen c.bookmarkId := by
      have h1 := hfresh c.bookmarkId
      have h2 : (c :: l).filter (fun x => x.bookmarkId == c.bookmarkId) =
          c :: l.filter (fun x => x.bookmarkId == c.bookmarkId) := by
        rw [List.filter_cons]
        simp
      rw [h2, List.map_cons] at h1
      have h3 := List.disjoint_of_nodup_append h1
      intro hmem
      exact h3 hmem (List.mem_cons_self _ _)
    have hstep : ∀ b2, aget (aset acc c.bookmarkId
        (match aget acc c.bookmarkId with
         | some g => aset g c.id (g.length + 1)
         | none => [(c.id, 1)])) b2 =
        (if (if b2 = c.bookmarkId then seen b2 ++ [c.id] else seen b2) = [] then none
         else some (idxFrom 0 (if b2 = c.bookmarkId then seen b2 ++ [c.id] else seen b2))) := by
      intro b2
      by_cases h2 : b2 = c.bookmarkId
      · subst h2
        rw [aget_aset_self, hacc c.bookmarkId, if_pos rfl]
        by_cases hs : seen c.bookmarkId = []
        · rw [if_pos hs, hs, if_neg (by simp)]
          rfl
        · rw [if_neg hs, if_neg (by simp [hs])]
          have hkeys := idxFrom_keys_ne (seen c.bookmarkId) 0 c.id hcid
          have hred : (match some (idxFrom 0 (seen c.bookmarkId)) with
              | some g => aset g c.id (g.length + 1)
              | none => [(c.id, 1)]) = aset (idxFrom 0 (seen c.bookmarkId)) c.id
                ((idxFrom 0 (seen c.bookmarkId)).length + 1) := rfl
          rw [hred, aset_not_mem (idxFrom 0 (seen c.bookmarkId)) c.id _ hkeys, idxFrom_length,
            idxFrom_snoc]
          simp
      · rw [aget_aset_ne _ _ _ _ h2, hacc b2, if_neg h2]
    have hfresh2 : ∀ b2, ((if b2 = c.bookmarkId then seen b2 ++ [c.id] else seen b2) ++
        (l.filter (fun x => x.bookmarkId == b2)).map (fun x => x.id)).Nodup := by
      intro b2
      by_cases h2 : b2 = c.bookmarkId
      · subst h2
        rw [if_pos rfl, List.append_assoc, List.singleton_append]
        have h3 : (c :: l).filter (fun x => x.bookmarkId == c.bookmarkId) =
            c :: l.filter (fun x => x.bookmarkId == c.bookmarkId) := by
          rw [List.filter_cons]
          simp
        have h1 := hfresh c.bookmarkId
        rw [h3, List.map_cons] at h1
        exact h1
      · rw [if_neg h2]
        have h3 : (c :: l).filter (fun x => x.bookmarkId == b2) =
            l.filter (fun x => x.bookmarkId == b2) := by
          rw [List.filter_cons]
          simp [show c.bookmarkId ≠ b2 from fun e => h2 e.symm]
        have h1 := hfresh b2
        rw [h3] at h1
        exact h1
    have hmain := ih (aset acc c.bookmarkId
        (match aget acc c.bookmarkId with
         | some g => aset g c.id (g.length + 1)
         | none => [(c.id, 1)]))
      (fun b2 => if b2 = c.bookmarkId then seen b2 ++ [c.id] else seen b2) hstep hfresh2 b
    rw [hmain]
    by_cases h2 : b = c.bookmarkId
    · subst h2
      have h3 : (c :: l).filter (fun x => x.bookmarkId == c.bookmarkId) =
          c :: l.filter (fun x => x.bookmarkId == c.bookmarkId) := by
        rw [List.filter_cons]
        simp
      rw [if_pos rfl, h3, List.map_cons, List.append_assoc, List.singleton_append]
    · have h3 : (c :: l).filter (fun x => x.bookmarkId == b) =
          l.filter (fun x => x.bookmarkId == b) := by
        rw [List.filter_cons]
        simp [show c.bookmarkId ≠ b from fun e => h2 e.symm]
      rw [if_neg h2, h3]

theorem groups_groupBy2 (l : List CommentRowV3) (hn : (l.map (fun c => c.id)).Nodup) (b : Nat) :
    aget (groupBy2 l (fun c => c.bookmarkId) (fun c hit =>
      match hit with
      | some g => aset g c.id (g.length + 1)
      | none => [(c.id, 1)])) b =
      (if (l.filter (fun c => c.bookmarkId == b)).map (fun c => c.id) = [] then none
       else some (idxFrom 0 ((l.filter (fun c => c.bookmarkId == b)).map (fun c => c.id)))) := by
  rw [groupBy2]
  have hfresh : ∀ b2, (([] : List Nat) ++
      (l.filter (fun c => c.bookmarkId == b2)).map (fun c => c.id)).Nodup := by
    intro b2
    rw [List.nil_append]
    exact hn.sublist (List.Sublist.map _ (List.filter_sublist l))
  have h := groups_fold l [] (fun _ => []) (fun b2 => by simp [aget]) hfresh b
  simpa using h

theorem insertByTime_perm (c : CommentRowV3) : ∀ (l : List CommentRowV3),
    (insertByTime c l).Perm (c :: l) := by
  intro l
  induction l with
  | nil => exact List.Perm.refl _
  | cons d rest ih =>
    rw [insertByTime]
    by_cases h : c.createdTime ≤ d.createdTime
    · rw [if_pos h]
    · rw [if_neg h]
      exact (ih.cons d).trans (List.Perm.swap c d rest)

theorem sortByTime_perm : ∀ (l : List CommentRowV3), (sortByTime l).Perm l := by
  intro l
  induction l with
  | nil => exact List.Perm.refl _
  | cons c rest ih =>
    rw [sortByTime]
    exact (insertByTime_perm c (sortByTime rest)).trans (ih.cons c)

theorem insertByTime_sorted (c : CommentRowV3) : ∀ (l : List CommentRowV3),
    l.Pairwise (fun a b => a.createdTime ≤ b.createdTime) →
    (insertByTime c l).Pairwise (fun a b => a.createdTime ≤ b.createdTime) := by
  intro l
  induction l with
  | nil =>
    intro _
    exact List.pairwise_singleton _ _
  | cons d rest ih =>
    intro h
    rcases List.pairwise_cons.mp h with ⟨hd, hrest⟩
    rw [insertByTime]
    by_cases hc : c.createdTime ≤ d.createdTime
    · rw [if_pos hc]
      refine List.pairwise_cons.mpr ⟨?_, h⟩
      intro x hx
      rcases List.mem_cons.mp hx with rfl | hx
      · exact hc
      · exact le_trans hc (hd x hx)
    · rw [if_neg hc]
      refine List.pairwise_cons.mpr ⟨?_, ih hrest⟩
      intro x hx
      rcases List.mem_cons.mp ((insertByTime_perm c rest).mem_iff.mp hx) with rfl | hx2
      · exact le_of_not_le hc
      · exact hd x hx2

theorem sortByTime_sorted : ∀ (l : List CommentRowV3),
    (sortByTime l).Pairwise (fun a b => a.createdTime ≤ b.createdTime) := by
  intro l
  induction l with
  | nil => exact List.Pairwise.nil
  | cons c rest ih => exact insertByTime_sorted c (sortByTime rest) ih

theorem forall2_imp_mem {α β : Type} {R Q : α → β → Prop} :
    ∀ {l₁ : List α} {l₂ : List β}, List.Forall₂ R l₁ l₂ →
    (∀ a ∈ l₁, ∀ b, R a b → Q a b) → List.Forall₂ Q l₁ l₂ := by
  intro l₁ l₂ h
  induction h with
  | nil => exact fun _ => List.Forall₂.nil
  | cons h1 h2 ih =>
    intro hq
    exact List.Forall₂.cons (hq _ (List.mem_cons_self _ _) _ h1)
      (ih (fun a ha b hr => hq a (List.mem_cons_of_mem _ ha) b hr))

theorem forall2_mem_right {α β : Type} {R : α → β → Prop} :
    ∀ {l₁ : List α} {l₂ : List β}, List.Forall₂ R l₁ l₂ → ∀ b ∈ l₂, ∃ a ∈ l₁, R a b := by
  intro l₁ l₂ h
  induction h with
  | nil =>
    intro b hb
    cases hb
  | cons h1 h2 ih =>
    intro b hb
    rcases List.mem_cons.mp hb with rfl | hb
    · exact ⟨_, List.mem_cons_self _ _, h1⟩
    · rcases ih b hb with ⟨a, ha, hr⟩
      exact ⟨a, List.mem_cons_of_mem _ ha, hr⟩

theorem forall2_map_eq {α β : Type} (f : β → α) : ∀ {l : List α} {cs : List β},
    List.Forall₂ (fun old new => f new = old) l cs → cs.map f = l := by
  intro l cs h
  induction h with
  | nil => rfl
  | cons h1 h2 ih => simp [ih, h1]

theorem forall2_countP {α β : Type} (p : α → Bool) (q : β → Bool) :
    ∀ {l₁ : List α} {l₂ : List β}, List.Forall₂ (fun a b => p a = q b) l₁ l₂ →
    l₁.countP p = l₂.countP q := by
  intro l₁ l₂ h
  induction h with
  | nil => rfl
  | cons h1 h2 ih => rw [List.countP_cons, List.countP_cons, ih, h1]

theorem forall2_take {α β : Type} {R : α → β → Prop} :
    ∀ (n : Nat) {l₁ : List α} {l₂ : List β}, List.Forall₂ R l₁ l₂ →
    List.Forall₂ R (l₁.take n) (l₂.take n) := by
  intro n
  induction n with
  | zero =>
    intro l₁ l₂ _
    exact List.Forall₂.nil
  | succ m ih =>
    intro l₁ l₂ h
    cases h with
    | nil => exact List.Forall₂.nil
    | cons h1 h2 => exact List.Forall₂.cons h1 (ih h2)

theorem forall2_get {α β : Type} {R : α → β → Prop} :
    ∀ {l₁ : List α} {l₂ : List β}, List.Forall₂ R l₁ l₂ →
    ∀ i (h₁ : i < l₁.length) (h₂ : i < l₂.length), R (l₁.get ⟨i, h₁⟩) (l₂.get ⟨i, h₂⟩) := by
  intro l₁ l₂ h
  induction h with
  | nil =>
    intro i h₁ _
    exact absurd h₁ (by simp)
  | cons h1 h2 ih =>
    intro i h₁ h₂
    cases i with
    | zero => exact h1
    | succ j => exact ih j (by simpa using h₁) (by simpa using h₂)

theorem migrateBookmarks_ok (nums : List (Nat × Nat)) : ∀ (bl : List BookmarkRowV3),
    (∀ b2 ∈ bl, ∃ n, aget nums b2.id = some n ∧ n ≠ 0) →
    ∃ bs, migrateBookmarks nums bl = .ok bs ∧
      List.Forall₂ (fun (old : BookmarkRowV3) (new : BookmarkRowV4) =>
        new.id = old.id ∧ aget nums old.id = some new.numComments) bl bs := by
  intro bl
  induction bl with
  | nil => exact fun _ => ⟨[], rfl, List.Forall₂.nil⟩
  | cons old rest ih =>
    intro h
    rcases h old (List.mem_cons_self _ _) with ⟨n, hn, hn0⟩
    rcases ih (fun b2 hb2 => h b2 (List.mem_cons_of_mem _ hb2)) with ⟨bs, hbs, hf⟩
    refine ⟨({ id := old.id
               userId := old.userId
               url := old.url
               title := old.title
               createdTime := old.createdTime
               modifiedTime := old.modifiedTime
               numComments := n
               render := old.render
               renderedTime := old.renderedTime } : BookmarkRowV4) :: bs,
      ?_, List.Forall₂.cons ⟨rfl, hn⟩ hf⟩
    simp only [migrateBookmarks, hn, if_neg hn0, hbs, Except.map]

theorem migrateComments_ok (groups : List (Nat × List (Nat × Nat))) :
    ∀ (l : List CommentRowV3),
    (∀ c ∈ l, ∃ k, (aget groups c.bookmarkId).bind (fun g => aget g c.id) = some k) →
    ∃ cs, migrateComments groups l = .ok cs ∧
      List.Forall₂ (fun (old : CommentRowV3) (new : MigratedComment) =>
        stripMigrated new = old ∧ new.bookmarkId = old.bookmarkId ∧
        new.fullRender = old.render ∧
        (aget groups old.bookmarkId).bind (fun g => aget g old.id) = some new.siblingIdx)
        l cs := by
  intro l
  induction l with
  | nil => exact fun _ => ⟨[], rfl, List.Forall₂.nil⟩
  | cons old rest ih =>
    intro h
    rcases h old (List.mem_cons_self _ _) with ⟨k, hk⟩
    rcases ih (fun c hc => h c (List.mem_cons_of_mem _ hc)) with ⟨cs, hcs, hf⟩
    refine ⟨({ id := old.id
               bookmarkId := old.bookmarkId
               siblingIdx := k
               content := old.content
               createdTime := old.createdTime
               modifiedTime := old.modifiedTime
               innerRender := old.render
               fullRender := old.render
               renderedTime := old.renderedTime } : MigratedComment) :: cs,
      ?_, List.Forall₂.cons ⟨rfl, rfl, rfl, hk⟩ hf⟩
    simp only [migrateComments, hk, hcs, Except.map]

theorem groups_lookup_at (S : List CommentRowV3) (hn : (S.map (fun c => c.id)).Nodup)
    (i : Nat) (h : i < S.length) :
    (aget (groupBy2 S (fun c => c.bookmarkId) (fun c hit =>
        match hit with
        | some g => aset g c.id (g.length + 1)
        | none => [(c.id, 1)])) (S.get ⟨i, h⟩).bookmarkId).bind
      (fun g => aget g (S.get ⟨i, h⟩).id) =
    some ((S.take i).countP (fun d => d.bookmarkId == (S.get ⟨i, h⟩).bookmarkId) + 1) := by
  set c := S.get ⟨i, h⟩ with hc
  have hdec : S = S.take i ++ c :: S.drop (i + 1) := by
    conv_lhs => rw [← List.take_append_drop i S]
    rw [List.drop_eq_getElem_cons h]
    rfl
  have hpc : ((fun d : CommentRowV3 => d.bookmarkId == c.bookmarkId) c) = true := by simp
  have hfilter : S.filter (fun d => d.bookmarkId == c.bookmarkId) =
      (S.take i).filter (fun d => d.bookmarkId == c.bookmarkId) ++
        c :: (S.drop (i + 1)).filter (fun d => d.bookmarkId == c.bookmarkId) := by
    conv_lhs => rw [hdec]
    rw [List.filter_append, List.filter_cons]
    simp only [hpc, if_true]
  have hids : (S.filter (fun d => d.bookmarkId == c.bookmarkId)).map (fun d => d.id) =
      ((S.take i).filter (fun d => d.bookmarkId == c.bookmarkId)).map (fun d => d.id) ++
        c.id :: ((S.drop (i + 1)).filter (fun d => d.bookmarkId == c.bookmarkId)).map
          (fun d => d.id) := by
    rw [hfilter, List.map_append, List.map_cons]
  have hne : (S.filter (fun d => d.bookmarkId == c.bookmarkId)).map (fun d => d.id) ≠ [] := by
    rw [hids]
    exact List.append_ne_nil_of_right_ne_nil _ (List.cons_ne_nil _ _)
  have hmapdec : S.map (fun d => d.id) =
      (S.take i).map (fun d => d.id) ++ c.id :: (S.drop (i + 1)).map (fun d => d.id) := by
    conv_lhs => rw [hdec]
    rw [List.map_append, List.map_cons]
  have hnotin : c.id ∉ (S.take i).map (fun d => d.id) := by
    rw [hmapdec] at hn
    have hd := List.disjoint_of_nodup_append hn
    intro hmem
    exact hd hmem (List.mem_cons_self _ _)
  have hnotin2 : c.id ∉
      ((S.take i).filter (fun d => d.bookmarkId == c.bookmarkId)).map (fun d => d.id) :=
    fun hmem => hnotin (((List.filter_sublist (S.take i)).map (fun d => d.id)).subset hmem)
  have hget := aget_idxFrom
    (((S.take i).filter (fun d => d.bookmarkId == c.bookmarkId)).map (fun d => d.id)) c.id
    (((S.drop (i + 1)).filter (fun d => d.bookmarkId == c.bookmarkId)).map (fun d => d.id))
    0 hnotin2
  have hlen : (((S.take i).filter (fun d => d.bookmarkId == c.bookmarkId)).map
      (fun d => d.id)).length = (S.take i).countP (fun d => d.bookmarkId == c.bookmarkId) := by
    rw [List.length_map]
    exact (List.countP_eq_length_filter _ _).symm
  rw [groups_groupBy2 S hn c.bookmarkId, if_neg hne, Option.some_bind, hids, hget,
    Nat.zero_add, hlen]

theorem pairwise_of_pairwise_map {α β : Type} (f : β → α) (R : α → α → Prop) :
    ∀ {l : List β}, (l.map f).Pairwise R → l.Pairwise (fun a b => R (f a) (f b)) := by
  intro l
  induction l with
  | nil =>
    intro _
    exact List.Pairwise.nil
  | cons x xs ih =>
    intro h
    rw [List.map_cons, List.pairwise_cons] at h
    refine List.pairwise_cons.mpr ⟨?_, ih h.2⟩
    intro y hy
    exact h.1 (f y) (List.mem_map_of_mem f hy)

/-- C5: on every v3 source database with distinct comment ids in which every
bookmark has at least one comment (otherwise the migration throws its
no-comments-found error), the v3-to-v4 migration succeeds; each migrated
bookmark keeps its id and gets numComments equal to the number of source
comments referencing it; the migrated comments are (up to the added columns) a
permutation of the source comments, stored oldest-first by createdTime, and
each one's siblingIdx is exactly one more than the number of earlier comments
of the same bookmark in that order, i.e. its 1-based position within its
bookmark's oldest-first group; and re-deriving the per-bookmark counts by
direct query on the destination comment table agrees with every destination
bookmark's stored numComments. -/
theorem migrateV3toV4_spec (src : DbV3)
    (hids : (src.comments.map (fun c => c.id)).Nodup)
    (hpos : ∀ b ∈ src.bookmarks, src.comments.countP (fun c => c.bookmarkId == b.id) ≠ 0) :
    ∃ dst, migrateV3toV4 src = .ok dst ∧
      List.Forall₂ (fun (old : BookmarkRowV3) (new : BookmarkRowV4) =>
        new.id = old.id ∧
        new.numComments = src.comments.countP (fun c => c.bookmarkId == old.id))
        src.bookmarks dst.bookmarks ∧
      (dst.comments.map stripMigrated).Perm src.comments ∧
      dst.comments.Pairwise (fun a b => a.createdTime ≤ b.createdTime) ∧
      (∀ i (hi : i < dst.comments.length),
        (dst.comments.get ⟨i, hi⟩).siblingIdx =
          (dst.comments.take i).countP
            (fun d => d.bookmarkId == (dst.comments.get ⟨i, hi⟩).bookmarkId) + 1) ∧
      (∀ bk ∈ dst.bookmarks,
        bk.numComments = dst.comments.countP (fun c => c.bookmarkId == bk.id)) := by
  set S := sortByTime src.comments with hS
  have hperm : S.Perm src.comments := sortByTime_perm src.comments
  have hnS : (S.map (fun c => c.id)).Nodup := ((hperm.map _).nodup_iff).mpr hids
  set nums := groupBy2 S (fun c => c.bookmarkId) (fun _ hit => hit.getD 0 + 1) with hnums
  set groups := groupBy2 S (fun c => c.bookmarkId) (fun c hit =>
    match hit with
    | some g => aset g c.id (g.length + 1)
    | none => [(c.id, 1)]) with hgroups
  have hb : ∀ b2 ∈ src.bookmarks, ∃ n, aget nums b2.id = some n ∧ n ≠ 0 := by
    intro b2 hb2
    have hne : S.countP (fun c => c.bookmarkId == b2.id) ≠ 0 := by
      rw [hperm.countP_eq]
      exact hpos b2 hb2
    refine ⟨S.countP (fun c => c.bookmarkId == b2.id), ?_, hne⟩
    rw [hnums]
    exact nums_groupBy2 S b2.id hne
  have hcm : ∀ c ∈ S, ∃ k, (aget groups c.bookmarkId).bind (fun g => aget g c.id) = some k := by
    intro c hcmem
    rcases List.mem_iff_get.mp hcmem with ⟨⟨i, h1⟩, hg⟩
    rw [← hg, hgroups]
    exact ⟨_, groups_lookup_at S hnS i h1⟩
  rcases migrateBookmarks_ok nums src.bookmarks hb with ⟨bs, hbs, hfb⟩
  rcases migrateComments_ok groups S hcm with ⟨cs, hcs, hfc⟩
  have hmap : cs.map stripMigrated = S :=
    forall2_map_eq stripMigrated (hfc.imp (fun a b hab => hab.1))
  have hfb2 : List.Forall₂ (fun (old : BookmarkRowV3) (new : BookmarkRowV4) =>
      new.id = old.id ∧
      new.numComments = src.comments.countP (fun c => c.bookmarkId == old.id))
      src.bookmarks bs := by
    refine forall2_imp_mem hfb ?_
    intro old hold new hr
    refine ⟨hr.1, ?_⟩
    have hne : S.countP (fun c => c.bookmarkId == old.id) ≠ 0 := by
      rw [hperm.countP_eq]
      exact hpos old hold
    have hl := nums_groupBy2 S old.id hne
    rw [← hnums] at hl
    have h2 := Option.some.inj (hr.2.symm.trans hl)
    rw [h2, hperm.countP_eq]
  refine ⟨{ bookmarks := bs, comments := cs }, ?_, hfb2, ?_, ?_, ?_, ?_⟩
  · simp only [migrateV3toV4]
    rw [← hS, ← hnums, ← hgroups, hbs, hcs]
  · show (cs.map stripMigrated).Perm src.comments
    rw [hmap]
    exact hperm
  · show cs.Pairwise (fun a b => a.createdTime ≤ b.createdTime)
    have hp := sortByTime_sorted src.comments
    rw [← hS, ← hmap] at hp
    exact pairwise_of_pairwise_map stripMigrated
      (fun a b => a.createdTime ≤ b.createdTime) hp
  · intro i hi
    have hlen2 := hfc.length_eq
    have h1 : i < S.length := by
      rw [hlen2]
      exact hi
    have hR := forall2_get hfc i h1 hi
    have hlook := groups_lookup_at S hnS i h1
    rw [← hgroups] at hlook
    have hsib := Option.some.inj (hR.2.2.2.symm.trans hlook)
    have hcnt := forall2_countP
      (fun d : CommentRowV3 => d.bookmarkId == (S.get ⟨i, h1⟩).bookmarkId)
      (fun d : MigratedComment => d.bookmarkId == (cs.get ⟨i, hi⟩).bookmarkId)
      ((forall2_take i hfc).imp (fun a b hab => by simp only [hab.2.1, hR.2.1]))
    show (cs.get ⟨i, hi⟩).siblingIdx = _
    rw [hsib, hcnt]
  · intro bk hbk
    rcases forall2_mem_right hfb2 bk hbk with ⟨old, hold, hid, hnum⟩
    have hcpcs : cs.countP (fun c => c.bookmarkId == bk.id) =
        src.comments.countP (fun c => c.bookmarkId == bk.id) := by
      have h1 : (cs.map stripMigrated).countP (fun c => c.bookmarkId == bk.id) =
          src.comments.countP (fun c => c.bookmarkId == bk.id) := by
        rw [hmap]
        exact hperm.countP_eq _
      rw [List.countP_map] at h1
      exact h1
    show bk.numComments = cs.countP (fun c => c.bookmarkId == bk.id)
    rw [hnum, hcpcs, hid]

theorem migrateV3toV4_spec_witness :
    (migrationExampleDb.comments.map (fun c => c.id)).Nodup ∧
    (∀ b ∈ migrationExampleDb.bookmarks,
      migrationExampleDb.comments.countP (fun c => c.bookmarkId == b.id) ≠ 0) ∧
    (∃ dst, migrateV3toV4 migrationExampleDb = .ok dst ∧
      List.Forall₂ (fun (old : BookmarkRowV3) (new : BookmarkRowV4) =>
        new.id = old.id ∧
        new.numComments = migrationExampleDb.comments.countP
          (fun c => c.bookmarkId == old.id))
        migrationExampleDb.bookmarks dst.bookmarks ∧
      (dst.comments.map stripMigrated).Perm migrationExampleDb.comments ∧
      dst.comments.Pairwise (fun a b => a.createdTime ≤ b.createdTime) ∧
      (∀ i (hi : i < dst.comments.length),
        (dst.comments.get ⟨i, hi⟩).siblingIdx =
          (dst.comments.take i).countP
            (fun d => d.bookmarkId == (dst.comments.get ⟨i, hi⟩).bookmarkId) + 1) ∧
      (∀ bk ∈ dst.bookmarks,
        bk.numComments = dst.comments.countP (fun c => c.bookmarkId == bk.id))) :=
  ⟨by decide, by decide, migrateV3toV4_spec migrationExampleDb (by decide) (by decide)⟩

end Yamanote
